import Mathlib

/-!
# Kiss: the lazy spectral analyzer of KissFFT.cpp

A shallow embedding of the class `Kiss` (src/src/KissFFT.cpp, src/src/KissFFT.h).

* Scalars (`float`) are the elements of a linearly ordered field `R`: exact arithmetic,
  no NaN and no infinity (`1 / 0 = 0` as in every Lean field).  Rounding is modelled where
  it decides a branch: the pass band test of `transform` compares with `float` products.
* The analyzer object is the record `Kiss R`; every member function is a function from the
  record to the record.  A getter returns the record after the call together with the
  array its pointer result refers to.
* `kiss_fftr`, `kiss_fftri` and the `math<float>` routines live outside the repository;
  they are the fields of an `Engine`, about which nothing is assumed.
* `for ( i = 0; i < n; ++i )` is `forLoop body n`; `a[ i ] = v` is `List.set`,
  reading `a[ i ]` is `List.getD`.
-/

namespace KissFFT

/-- Complex sample of the FFT engine (`kiss_fft_cpx`). -/
structure kiss_fft_cpx (R : Type) where
  r : R
  i : R
deriving DecidableEq

/-- Routines the analyzer calls but which are not part of the repository: the numeric
library (`M_PI`, `math<float>::sin/cos/sqrt/atan2`) and the real FFT engine.
`kiss_fftr nfft timedata` is the forward transform made by a configuration allocated for
`nfft` samples, `kiss_fftri nfft freqdata` the inverse one. -/
structure Engine (R : Type) where
  pi : R
  sin : R → R
  cos : R → R
  sqrt : R → R
  atan2 : R → R → R
  kiss_fftr : Nat → List R → List (kiss_fft_cpx R)
  kiss_fftri : Nat → List (kiss_fft_cpx R) → List R

/-- Member variables of `Kiss` (KissFFT.h, lines 101-141).  The three scratch buffers
`mWindowedData`, `mCxIn`, `mCxOut` are fully written before they are read inside one call
and are local values of `transform` and `getData`; the two FFT configurations are
determined by `mDataSize`.  `mDataSize` and `mBinSize` are `int32_t` members that are
never negative in an analyzer whose buffers could be allocated. -/
structure Kiss (R : Type) where
  mAmplitude : List R
  mData : List R
  mImag : List R
  mInverseWindow : List R
  mPhase : List R
  mReal : List R
  mWindow : List R
  mBinSize : Nat
  mDataSize : Nat
  mWindowSum : R
  mCartesianNormalized : Bool
  mCartesianUpdated : Bool
  mDataNormalized : Bool
  mDataUpdated : Bool
  mPolarNormalized : Bool
  mPolarUpdated : Bool
  mFrequencyHigh : R
  mFrequencyLow : R
  mRunning : Bool
deriving DecidableEq

/-- Counted loop `for ( int32_t i = 0; i < n; ++i ) body`: the state after the first `n`
iterations. -/
def forLoop {σ : Type} (body : Nat → σ → σ) : Nat → σ → σ
  | 0, s => s
  | n + 1, s => body n (forLoop body n s)

/-- The C routine `memcpy( dst, src, n )` on arrays of scalars. -/
def memcpy {α : Type} (dst src : List α) (n : Nat) : List α :=
  src.take n ++ dst.drop n

/-- Wrapped value of a 32 bit signed integer expression. -/
def wrapInt32 (z : Int) : Int :=
  (z + 2147483648) % 4294967296 - 2147483648

/-- Values of the anonymous enum `Kiss::Filter` (KissFFT.h, lines 55-61). -/
def Filter.NONE : Int := 0

/-- Second value of the enum `Kiss::Filter`. -/
def Filter.LOW_PASS : Int := 1

/-- Third value of the enum `Kiss::Filter`. -/
def Filter.HIGH_PASS : Int := 2

/-- Fourth value of the enum `Kiss::Filter`. -/
def Filter.NOTCH : Int := 3

/-- The integer nearest to `y`, the even one of the two when `y` lies halfway. -/
def roundHalfEven {R : Type} [LinearOrderedField R] [FloorRing R] (y : R) : Int :=
  if y - (Int.floor y : R) < 1 / 2 then Int.floor y
  else if 1 / 2 < y - (Int.floor y : R) then Int.floor y + 1
  else if Int.floor y % 2 = 0 then Int.floor y
  else Int.floor y + 1

/-- Number of binary digits behind the point in the `float` nearest to `x`: the least `m`,
counted up from `m` with `fuel` steps left, for which `|x| * 2 ^ m` reaches `2 ^ 23`. -/
def fractionBits {R : Type} [LinearOrderedField R] (x : R) : Nat → Nat → Nat
  | m, 0 => m
  | m, fuel + 1 => if (2 : R) ^ 23 ≤ |x| * 2 ^ m then m else fractionBits x (m + 1) fuel

/-- The `float` (IEEE binary32: 24 significant binary digits, at most 149 digits behind the
point, nearest value, ties to even) that a `float` operation stores for the exact result
`x`.  Overflow is left out.  From `2 ^ 23` on the values stored are the whole numbers:
that is the format up to `2 ^ 24`, and beyond, where the format thins out, the whole numbers
are kept, so that the conversions of the `int32_t` values `i` and `mBinSize` to `float` in
line 372 are exact at every size.  This is the format as long as the product stays below
`2 ^ 24`. -/
def float32 {R : Type} [LinearOrderedField R] [FloorRing R] (x : R) : R :=
  (roundHalfEven (x * 2 ^ fractionBits x 0 149) : R) / 2 ^ fractionBits x 0 149

namespace Kiss

variable {R : Type} [LinearOrderedField R] [FloorRing R]

/-- Body of the bin loop of `transform` (KissFFT.cpp, lines 371-376).  The two products of
line 372 are `float` products: `float32` of the exact ones. -/
def filterBin (mCxOut : List (kiss_fft_cpx R)) (i : Nat) (s : Kiss R) : Kiss R :=
  let mApplyComlex : Bool :=
    decide (float32 (s.mFrequencyLow * (s.mBinSize : R)) ≤ (i : R)) &&
      decide ((i : R) ≤ float32 (s.mFrequencyHigh * (s.mBinSize : R)))
  { s with
    mReal := s.mReal.set i (if mApplyComlex then (mCxOut.getD i ⟨0, 0⟩).r else 0)
    mImag := s.mImag.set i (if mApplyComlex then (mCxOut.getD i ⟨0, 0⟩).i else 0) }

/-- The bin loop of `transform` (KissFFT.cpp, lines 364-378) after `n` iterations.  The
second component tells whether the `return` of line 368 has been executed. -/
def filterLoop (mCxOut : List (kiss_fft_cpx R)) : Nat → Kiss R → Kiss R × Bool
  | 0, s => (s, false)
  | n + 1, s =>
    match filterLoop mCxOut n s with
    | (t, true) => (t, true)
    | (t, false) => if !t.mRunning then (t, true) else (filterBin mCxOut n t, false)

/-- Body of the polar to cartesian loop of `transform` (KissFFT.cpp, lines 387-388). -/
def polarBin (E : Engine R) (i : Nat) (s : Kiss R) : Kiss R :=
  let s1 := { s with mReal := s.mReal.set i (E.cos (s.mPhase.getD i 0) * s.mAmplitude.getD i 0) }
  { s1 with mImag := s1.mImag.set i (E.sin (s1.mPhase.getD i 0) * s1.mAmplitude.getD i 0) }

/-- Body of the normalizing loop of `transform` (KissFFT.cpp, lines 403-404). -/
def scaleBin (mNormalizer : R) (i : Nat) (s : Kiss R) : Kiss R :=
  let s1 := { s with mReal := s.mReal.set i (s.mReal.getD i 0 * mNormalizer) }
  { s1 with mImag := s1.mImag.set i (s1.mImag.getD i 0 * mNormalizer) }

/-- The part of `Kiss::transform` that refreshes the cartesian values (KissFFT.cpp, lines
348-395).  The second component tells whether the function has returned from inside the
bin loop. -/
def refresh (E : Engine R) (s : Kiss R) : Kiss R × Bool :=
  if !s.mCartesianUpdated then
    if !s.mPolarUpdated then
      let mWindowedData : List R :=
        (List.range s.mDataSize).map (fun i => s.mData.getD i 0 * s.mWindow.getD i 0)
      let mCxOut := E.kiss_fftr s.mDataSize mWindowedData
      match filterLoop mCxOut s.mBinSize s with
      | (t, true) => (t, true)
      | (t, false) => ({ t with mCartesianUpdated := true }, false)
    else
      let t := forLoop (polarBin E) s.mBinSize s
      ({ t with mCartesianUpdated := true, mCartesianNormalized := t.mPolarNormalized }, false)
  else (s, false)

/-- The member function `Kiss::transform` (KissFFT.cpp, lines 341-409). -/
def transform (E : Engine R) (s : Kiss R) : Kiss R :=
  if !s.mRunning then s
  else
    match refresh E s with
    | (t, true) => t
    | (t, false) =>
      if !t.mCartesianNormalized then
        let mNormalizer : R := 2 / t.mWindowSum
        let u := forLoop (scaleBin mNormalizer) t.mBinSize t
        { u with mCartesianNormalized := true }
      else t

/-- Body of the first loop of `cartesianToPolar` (KissFFT.cpp, lines 82-83). -/
def polarizeBin (E : Engine R) (i : Nat) (s : Kiss R) : Kiss R :=
  let s1 := { s with
    mAmplitude := s.mAmplitude.set i (E.sqrt (s.mReal.getD i 0 ^ 2 + s.mImag.getD i 0 ^ 2)) }
  { s1 with mPhase := s1.mPhase.set i (E.atan2 (s1.mImag.getD i 0) (s1.mReal.getD i 0)) }

/-- Body of the second loop of `cartesianToPolar` (KissFFT.cpp, line 98). -/
def scaleAmplitude (mNormalizer : R) (i : Nat) (s : Kiss R) : Kiss R :=
  { s with mAmplitude := s.mAmplitude.set i (s.mAmplitude.getD i 0 * mNormalizer) }

/-- The member function `Kiss::cartesianToPolar` (KissFFT.cpp, lines 70-104). -/
def cartesianToPolar (E : Engine R) (s : Kiss R) : Kiss R :=
  let s1 :=
    if !s.mPolarUpdated then
      let t := transform E s
      let u := forLoop (polarizeBin E) t.mBinSize t
      { u with mPolarUpdated := true, mPolarNormalized := u.mCartesianNormalized }
    else s
  if !s1.mPolarNormalized then
    let mNormalizer : R := 2 / s1.mWindowSum
    let u := forLoop (scaleAmplitude mNormalizer) s1.mBinSize s1
    { u with mPolarNormalized := true }
  else s1

/-- The member function `Kiss::getAmplitude` (KissFFT.cpp, lines 152-157). -/
def getAmplitude (E : Engine R) (s : Kiss R) : Kiss R × List R :=
  let t := cartesianToPolar E s
  (t, t.mAmplitude)

/-- The member function `Kiss::getPhase` (KissFFT.cpp, lines 205-210). -/
def getPhase (E : Engine R) (s : Kiss R) : Kiss R × List R :=
  let t := cartesianToPolar E s
  (t, t.mPhase)

/-- The member function `Kiss::getReal` (KissFFT.cpp, lines 213-218). -/
def getReal (E : Engine R) (s : Kiss R) : Kiss R × List R :=
  let t := transform E s
  (t, t.mReal)

/-- The member function `Kiss::getImaginary` (KissFFT.cpp, lines 221-226). -/
def getImaginary (E : Engine R) (s : Kiss R) : Kiss R × List R :=
  let t := transform E s
  (t, t.mImag)

/-- Body of the window removing loop of `getData` (KissFFT.cpp, line 177). -/
def unwindowSample (i : Nat) (s : Kiss R) : Kiss R :=
  { s with mData := s.mData.set i (s.mData.getD i 0 * s.mInverseWindow.getD i 0) }

/-- Body of the normalizing loop of `getData` (KissFFT.cpp, line 193). -/
def scaleSample (mNormalizer : R) (i : Nat) (s : Kiss R) : Kiss R :=
  { s with mData := s.mData.set i (s.mData.getD i 0 * mNormalizer) }

/-- The member function `Kiss::getData` (KissFFT.cpp, lines 160-202). -/
def getData (E : Engine R) (s : Kiss R) : Kiss R × List R :=
  let s1 :=
    if !s.mDataUpdated then
      let t := transform E s
      let mCxIn : List (kiss_fft_cpx R) :=
        (List.range t.mBinSize).map (fun i => ⟨t.mReal.getD i 0, t.mImag.getD i 0⟩)
      let t1 := { t with mData := memcpy t.mData (E.kiss_fftri t.mDataSize mCxIn) t.mDataSize }
      let u := forLoop unwindowSample t1.mDataSize t1
      { u with mDataUpdated := true, mDataNormalized := false }
    else s
  let s2 :=
    if !s1.mDataNormalized then
      let mNormalizer : R := s1.mWindowSum / ((wrapInt32 (2 * (s1.mDataSize : Int)) : Int) : R)
      let u := forLoop (scaleSample mNormalizer) s1.mDataSize s1
      { u with mDataNormalized := true }
    else s1
  (s2, s2.mData)

/-- The inline getter `Kiss::getBinSize` (KissFFT.h, line 84). -/
def getBinSize (s : Kiss R) : Nat := s.mBinSize

/-- The inline getter `Kiss::getDataSize` (KissFFT.h, line 86). -/
def getDataSize (s : Kiss R) : Nat := s.mDataSize

/-- The member function `Kiss::setData` (KissFFT.cpp, lines 234-250). -/
def setData (data : List R) (s : Kiss R) : Kiss R :=
  let s1 := { s with
    mCartesianUpdated := false
    mPolarUpdated := false
    mCartesianNormalized := false
    mPolarNormalized := false
    mDataUpdated := false
    mDataNormalized := false }
  let s2 := { s1 with mData := memcpy s1.mData data s1.mDataSize }
  { s2 with mDataUpdated := true, mDataNormalized := true }

/-- Body of the window loop of `setDataSize` (KissFFT.cpp, lines 293-295). -/
def windowSample (E : Engine R) (i : Nat) (s : Kiss R) : Kiss R :=
  let s1 := { s with
    mWindow := s.mWindow.set i (E.sin ((E.pi * (i : R)) / (((s.mDataSize : Int) - 1 : Int) : R))) }
  let s2 := { s1 with mWindowSum := s1.mWindowSum + s1.mWindow.getD i 0 }
  { s2 with mInverseWindow := s2.mInverseWindow.set i (1 / s2.mWindow.getD i 0) }

/-- The member function `Kiss::setDataSize` (KissFFT.cpp, lines 253-303).  The argument is
an `int32_t`.  `none` stands for the exception thrown by `new float[ mDataSize ]` when the
size is negative; for other sizes the allocations are taken to succeed.  `dispose` only
releases memory.  A freshly allocated array is a list of the allocated length: the
`memset` calls zero five of them, the window loop assigns every cell of `mWindow` and
`mInverseWindow`.  `mDataUpdated` and `mRunning` are not assigned. -/
def setDataSize (E : Engine R) (dataSize : Int) (s : Kiss R) : Option (Kiss R) :=
  if dataSize < 0 then none
  else
    let s0 := { s with mDataSize := dataSize.toNat }
    let s1 := { s0 with mBinSize := s0.mDataSize / 2 + 1, mWindowSum := 0 }
    let s2 := { s1 with
      mCartesianNormalized := true
      mCartesianUpdated := true
      mDataNormalized := true
      mPolarNormalized := true
      mPolarUpdated := true }
    let s3 := { s2 with
      mAmplitude := List.replicate s2.mBinSize 0
      mData := List.replicate s2.mDataSize 0
      mImag := List.replicate s2.mBinSize 0
      mInverseWindow := List.replicate s2.mDataSize 0
      mReal := List.replicate s2.mBinSize 0
      mPhase := List.replicate s2.mBinSize 0
      mWindow := List.replicate s2.mDataSize 0 }
    let s4 := { s3 with mFrequencyHigh := 1, mFrequencyLow := 0 }
    some (forLoop (windowSample E) s4.mDataSize s4)

/-- The member function `Kiss::setFilter( float, float )` (KissFFT.cpp, lines 326-331). -/
def setFilter (lowFrequency highFrequency : R) (s : Kiss R) : Kiss R :=
  { s with mFrequencyLow := lowFrequency, mFrequencyHigh := highFrequency }

/-- The member function `Kiss::setFilter( float, int32_t )` (KissFFT.cpp, lines 306-323). -/
def setFilterPreset (frequency : R) (filter : Int) (s : Kiss R) : Kiss R :=
  if filter = Filter.HIGH_PASS then setFilter frequency 1 s
  else if filter = Filter.LOW_PASS then setFilter 0 frequency s
  else if filter = Filter.NONE then setFilter 0 1 s
  else if filter = Filter.NOTCH then setFilter frequency frequency s
  else s

/-- The member function `Kiss::removeFilter` (KissFFT.cpp, lines 228-231). -/
def removeFilter (s : Kiss R) : Kiss R :=
  setFilterPreset 0 Filter.NONE s

/-- The member function `Kiss::stop` (KissFFT.cpp, lines 334-338). -/
def stop (s : Kiss R) : Kiss R :=
  { s with mRunning := false }

/-- The constructor behind `Kiss::create` (KissFFT.cpp, lines 45-59).  The constructor
assigns `mRunning` and `mDataSize` and calls `setDataSize`, which assigns every other
member except `mDataUpdated`: that flag keeps the indeterminate value `dataUpdated0` of
the fresh object. -/
def create (E : Engine R) (dataSize : Int) (dataUpdated0 : Bool) : Option (Kiss R) :=
  setDataSize E dataSize
    { mAmplitude := [], mData := [], mImag := [], mInverseWindow := [], mPhase := [],
      mReal := [], mWindow := [], mBinSize := 0, mDataSize := dataSize.toNat, mWindowSum := 0,
      mCartesianNormalized := false, mCartesianUpdated := false, mDataNormalized := false,
      mDataUpdated := dataUpdated0, mPolarNormalized := false, mPolarUpdated := false,
      mFrequencyHigh := 0, mFrequencyLow := 0, mRunning := true }

/-- Decision the bin loop of `transform` takes for bin `i` (KissFFT.cpp, line 372). -/
def applies (s : Kiss R) (i : Nat) : Bool :=
  decide (float32 (s.mFrequencyLow * (s.mBinSize : R)) ≤ (i : R)) &&
    decide ((i : R) ≤ float32 (s.mFrequencyHigh * (s.mBinSize : R)))

/-- The forward path of `transform` is due: the analyzer runs and neither the cartesian nor
the polar values are current (KissFFT.cpp, lines 344, 349, 352). -/
def forwardPending (s : Kiss R) : Bool :=
  s.mRunning && !s.mCartesianUpdated && !s.mPolarUpdated

/-- Value of `mCxOut` after the forward transform of the windowed samples (KissFFT.cpp,
lines 355-361). -/
def forwardFFT (E : Engine R) (s : Kiss R) : List (kiss_fft_cpx R) :=
  E.kiss_fftr s.mDataSize
    ((List.range s.mDataSize).map (fun i => s.mData.getD i 0 * s.mWindow.getD i 0))

/-- The buffers have the lengths `setDataSize` allocates them with. -/
def Allocated (s : Kiss R) : Prop :=
  s.mAmplitude.length = s.mBinSize ∧ s.mImag.length = s.mBinSize ∧
  s.mPhase.length = s.mBinSize ∧ s.mReal.length = s.mBinSize ∧
  s.mData.length = s.mDataSize ∧ s.mInverseWindow.length = s.mDataSize ∧
  s.mWindow.length = s.mDataSize

instance instDecidableAllocated (s : Kiss R) : Decidable (Allocated s) := by
  unfold Allocated
  infer_instance

end Kiss

/-- The five getters that return an array. -/
inductive Getter where
  | getAmplitude
  | getPhase
  | getReal
  | getImaginary
  | getData
deriving DecidableEq

/-- One getter call: the analyzer after the call and the array returned. -/
def Getter.call {R : Type} [LinearOrderedField R] [FloorRing R] (E : Engine R) :
    Getter → Kiss R → Kiss R × List R
  | Getter.getAmplitude, s => Kiss.getAmplitude E s
  | Getter.getPhase, s => Kiss.getPhase E s
  | Getter.getReal, s => Kiss.getReal E s
  | Getter.getImaginary, s => Kiss.getImaginary E s
  | Getter.getData, s => Kiss.getData E s

/-- The analyzer after a sequence of getter calls, the first of the list first. -/
def callAll {R : Type} [LinearOrderedField R] [FloorRing R] (E : Engine R) :
    List Getter → Kiss R → Kiss R
  | [], s => s
  | g :: gs, s => callAll E gs (g.call E s).1

/-- The public operations of an analyzer that exists. -/
inductive Op (R : Type) where
  | setData (data : List R)
  | setDataSize (dataSize : Int)
  | setFilter (lowFrequency highFrequency : R)
  | setFilterPreset (frequency : R) (filter : Int)
  | removeFilter
  | stop
  | get (g : Getter)
  | getBinSize
  | getDataSize

/-- The analyzer after one public operation; `none` when the operation throws. -/
def Op.step {R : Type} [LinearOrderedField R] [FloorRing R] (E : Engine R) :
    Op R → Kiss R → Option (Kiss R)
  | Op.setData data, s => some (Kiss.setData data s)
  | Op.setDataSize dataSize, s => Kiss.setDataSize E dataSize s
  | Op.setFilter lo hi, s => some (Kiss.setFilter lo hi s)
  | Op.setFilterPreset f k, s => some (Kiss.setFilterPreset f k s)
  | Op.removeFilter, s => some (Kiss.removeFilter s)
  | Op.stop, s => some (Kiss.stop s)
  | Op.get g, s => some (g.call E s).1
  | Op.getBinSize, s => some s
  | Op.getDataSize, s => some s

/-- The analyzer after a sequence of public operations, the first of the list first. -/
def run {R : Type} [LinearOrderedField R] [FloorRing R] (E : Engine R) :
    List (Op R) → Kiss R → Option (Kiss R)
  | [], s => some s
  | op :: ops, s => (op.step E s).bind (run E ops)

/-- The array `a` after its first `n` cells (those it has) have been rewritten, cell `j`
from its old value `v` to `h j v`. -/
def overwrite {α : Type} (n : Nat) (h : Nat → α → α) (a : List α) : List α :=
  a.mapIdx (fun j v => if j < n then h j v else v)

/-- The array the specification says `getData` returns after `setFilter` and `setData`
(written from the specification, not from the code): the inverse transform of the current
filtered cartesian values, sample `i` times `1 / window[ i ]`, times
`windowSum / ( 2 * dataSize )`. -/
def reconstruction {R : Type} [LinearOrderedField R] [FloorRing R] (E : Engine R)
    (s : Kiss R) : List R :=
  let t := Kiss.transform E s
  let inverse := E.kiss_fftri s.mDataSize
    ((List.range s.mBinSize).map (fun i => ⟨t.mReal.getD i 0, t.mImag.getD i 0⟩))
  (List.range s.mDataSize).map
    (fun i => inverse.getD i 0 * (1 / s.mWindow.getD i 0)
      * (s.mWindowSum / (2 * (s.mDataSize : R))))

/-- The object inside the constructor just before it calls `setDataSize` (KissFFT.cpp,
lines 53-57): `mRunning` and `mDataSize` are assigned, `mDataUpdated` holds the
indeterminate value `dataUpdated0`; the other members, all of which `setDataSize` assigns,
are given empty and zero values. -/
def unbuilt {R : Type} [LinearOrderedField R] (dataSize : Int) (dataUpdated0 : Bool) : Kiss R where
  mAmplitude := []
  mData := []
  mImag := []
  mInverseWindow := []
  mPhase := []
  mReal := []
  mWindow := []
  mBinSize := 0
  mDataSize := dataSize.toNat
  mWindowSum := 0
  mCartesianNormalized := false
  mCartesianUpdated := false
  mDataNormalized := false
  mDataUpdated := dataUpdated0
  mPolarNormalized := false
  mPolarUpdated := false
  mFrequencyHigh := 0
  mFrequencyLow := 0
  mRunning := true

/-- The polar to cartesian branch of `transform` is due: the analyzer runs, the cartesian
values are stale and the polar values are current (KissFFT.cpp, lines 344, 349, 352,
383). -/
def polarToCartesianDue {R : Type} (s : Kiss R) : Bool :=
  s.mRunning && !s.mCartesianUpdated && s.mPolarUpdated

/-- The filter bounds lie in the unit square. -/
def filterInUnitSquare {R : Type} [LinearOrderedField R] (s : Kiss R) : Prop :=
  0 ≤ s.mFrequencyLow ∧ s.mFrequencyLow ≤ 1 ∧ 0 ≤ s.mFrequencyHigh ∧ s.mFrequencyHigh ≤ 1

instance instDecidableFilterInUnitSquare {R : Type} [LinearOrderedField R] (s : Kiss R) :
    Decidable (filterInUnitSquare s) := by
  unfold filterInUnitSquare
  infer_instance

/-- Every frequency the operation passes to either form of `setFilter` lies between 0
and 1. -/
def Op.frequenciesInUnit {R : Type} [LinearOrderedField R] : Op R → Prop
  | Op.setFilter lo hi => 0 ≤ lo ∧ lo ≤ 1 ∧ 0 ≤ hi ∧ hi ≤ 1
  | Op.setFilterPreset f _ => 0 ≤ f ∧ f ≤ 1
  | _ => True

/-- The operation is a call of `setData`. -/
def Op.isSetData {R : Type} : Op R → Bool
  | Op.setData _ => true
  | _ => false

/-- The operation is a call of `setDataSize`. -/
def Op.isSetDataSize {R : Type} : Op R → Bool
  | Op.setDataSize _ => true
  | _ => false

/-- Modelled from the spec: the forward real FFT engine `kiss_fftr`, which is not among
the sources, as the real discrete Fourier transform of `nfft` samples, bins 0 to
`nfft / 2`, bin `k` being the sum of `x[ n ] * ( cos t - i sin t )` with
`t = 2 pi k n / nfft`.  The cosine, the sine and the circle constant are arguments. -/
def realDFT {R : Type} [Field R] (cos sin : R → R) (pi : R) (nfft : Nat) (timedata : List R) :
    List (kiss_fft_cpx R) :=
  (List.range (nfft / 2 + 1)).map (fun k =>
    ⟨((List.range nfft).map
        (fun n => timedata.getD n 0 * cos (2 * pi * ((k * n : Nat) : R) / (nfft : R)))).sum,
      ((List.range nfft).map
        (fun n => -(timedata.getD n 0 * sin (2 * pi * ((k * n : Nat) : R) / (nfft : R))))).sum⟩)

/-- The engine computes in exact real arithmetic: its circle constant, sine, cosine and
square root are those of the real numbers and its forward transform is the real DFT. -/
def Exact (E : Engine ℝ) : Prop :=
  E.pi = Real.pi ∧ E.sin = Real.sin ∧ E.cos = Real.cos ∧ E.sqrt = Real.sqrt ∧
    E.kiss_fftr = realDFT Real.cos Real.sin Real.pi

/-- The block of the scenario: a sine sampled four times a period, two periods. -/
def sineBlock {R : Type} [LinearOrderedField R] : List R := [1, 0, -1, 0, 1, 0, -1, 0]

/-! ## A concrete engine and analyzer over the rationals -/

/-- The real DFT of four samples: bins 0, 1 and 2. -/
def dft4 : List ℚ → List (kiss_fft_cpx ℚ)
  | [a, b, c, d] => [⟨a + b + c + d, 0⟩, ⟨a - c, d - b⟩, ⟨a - b + c - d, 0⟩]
  | _ => []

/-- The unscaled inverse real DFT of four samples, from bins 0, 1 and 2. -/
def idft4 : List (kiss_fft_cpx ℚ) → List ℚ
  | [x0, x1, x2] =>
    [x0.r + 2 * x1.r + x2.r, x0.r - 2 * x1.i - x2.r, x0.r - 2 * x1.r + x2.r,
      x0.r + 2 * x1.i - x2.r]
  | _ => []

/-- An engine over the rationals for running the analyzer on concrete blocks of four
samples: the exact four point transforms, 22/7 for the circle constant, the sine
approximation of Bhaskara (exact at 0 and at the circle constant), and rational stand-ins
for the square root and the angle. -/
def sampleEngine : Engine ℚ where
  pi := 22 / 7
  sin := fun x => 16 * x * (22 / 7 - x) / (5 * (22 / 7) ^ 2 - 4 * x * (22 / 7 - x))
  cos := fun x => 1 - x ^ 2 / 2
  sqrt := fun x => (x + 1) / 2
  atan2 := fun y x => y / (|x| + |y| + 1)
  kiss_fftr := fun _ t => dft4 t
  kiss_fftri := fun _ c => idft4 c

/-- The engine `sampleEngine` with an inverse transform that returns a marker block
whatever it is given: a call of the inverse transform shows in the samples. -/
def markedEngine : Engine ℚ :=
  { sampleEngine with kiss_fftri := fun _ _ => [1, 1, 1, 1] }

/-- The analyzer `create( 4 )` builds with `sampleEngine`, its uninitialised flag
`mDataUpdated` reading `dataUpdated0`. -/
def sampleKiss (dataUpdated0 : Bool) : Kiss ℚ where
  mAmplitude := [0, 0, 0]
  mData := [0, 0, 0, 0]
  mImag := [0, 0, 0]
  mInverseWindow := [0, 37 / 32, 37 / 32, 0]
  mPhase := [0, 0, 0]
  mReal := [0, 0, 0]
  mWindow := [0, 32 / 37, 32 / 37, 0]
  mBinSize := 3
  mDataSize := 4
  mWindowSum := 64 / 37
  mCartesianNormalized := true
  mCartesianUpdated := true
  mDataNormalized := true
  mDataUpdated := dataUpdated0
  mPolarNormalized := true
  mPolarUpdated := true
  mFrequencyHigh := 1
  mFrequencyLow := 0
  mRunning := true

/-! ## Rounding to `float` -/

/-- The count of fraction digits never falls below its starting point. -/
theorem le_fractionBits {R : Type} [LinearOrderedField R] (x : R) (fuel m : Nat) :
    m ≤ fractionBits x m fuel := by
  induction fuel generalizing m with
  | zero => exact le_refl _
  | succ fuel ih =>
    unfold fractionBits
    split_ifs
    · exact le_refl _
    · exact le_trans (Nat.le_succ m) (ih (m + 1))

section Rounding

variable {R : Type} [LinearOrderedField R] [FloorRing R]

/-- Rounding to the nearest integer does not pass an integer above. -/
theorem roundHalfEven_le (y : R) (k : Int) (h : y ≤ (k : R)) : roundHalfEven y ≤ k := by
  have hf : Int.floor y ≤ k := Int.floor_le_iff.mpr (lt_of_le_of_lt h (by simp))
  have hstep : (Int.floor y : R) < y → Int.floor y + 1 ≤ k := by
    intro hlt
    have : ((Int.floor y : Int) : R) < (k : R) := lt_of_lt_of_le hlt h
    have : Int.floor y < k := by exact_mod_cast this
    omega
  unfold roundHalfEven
  split_ifs with h1 h2 h3
  · exact hf
  · exact hstep (by linarith)
  · exact hf
  · exact hstep (by
      have : y - (Int.floor y : R) = 1 / 2 := le_antisymm (not_lt.mp h2) (not_lt.mp h1)
      linarith)

/-- Rounding to the nearest integer does not pass an integer below. -/
theorem le_roundHalfEven (y : R) (k : Int) (h : (k : R) ≤ y) : k ≤ roundHalfEven y := by
  have hf : k ≤ Int.floor y := Int.le_floor.mpr h
  unfold roundHalfEven
  split_ifs <;> omega

/-- An integer is its own nearest integer. -/
theorem roundHalfEven_intCast (k : Int) : roundHalfEven ((k : Int) : R) = k :=
  le_antisymm (roundHalfEven_le _ k (le_refl _)) (le_roundHalfEven _ k (le_refl _))

/-- A `float` result does not pass an integer above. -/
theorem float32_le_intCast (x : R) (k : Int) (h : x ≤ (k : R)) : float32 x ≤ (k : R) := by
  unfold float32
  have hp : (0 : R) < 2 ^ fractionBits x 0 149 := by positivity
  rw [div_le_iff₀ hp]
  have h1 : x * 2 ^ fractionBits x 0 149 ≤ ((k * 2 ^ fractionBits x 0 149 : Int) : R) := by
    push_cast
    exact mul_le_mul_of_nonneg_right h (le_of_lt hp)
  have h2 := roundHalfEven_le _ _ h1
  have h3 : ((roundHalfEven (x * 2 ^ fractionBits x 0 149) : Int) : R)
      ≤ ((k * 2 ^ fractionBits x 0 149 : Int) : R) := by exact_mod_cast h2
  simpa using h3

/-- A `float` result does not pass an integer below. -/
theorem intCast_le_float32 (x : R) (k : Int) (h : (k : R) ≤ x) : (k : R) ≤ float32 x := by
  unfold float32
  have hp : (0 : R) < 2 ^ fractionBits x 0 149 := by positivity
  rw [le_div_iff₀ hp]
  have h1 : ((k * 2 ^ fractionBits x 0 149 : Int) : R) ≤ x * 2 ^ fractionBits x 0 149 := by
    push_cast
    exact mul_le_mul_of_nonneg_right h (le_of_lt hp)
  have h2 := le_roundHalfEven _ _ h1
  have h3 : ((k * 2 ^ fractionBits x 0 149 : Int) : R)
      ≤ ((roundHalfEven (x * 2 ^ fractionBits x 0 149) : Int) : R) := by exact_mod_cast h2
  simpa using h3

/-- A `float` product does not pass a whole number above. -/
theorem float32_le_natCast (x : R) (n : Nat) (h : x ≤ (n : R)) : float32 x ≤ (n : R) := by
  have h1 := float32_le_intCast x (n : Int) (by simpa using h)
  simpa using h1

/-- A `float` product does not pass a whole number below. -/
theorem natCast_le_float32 (x : R) (n : Nat) (h : (n : R) ≤ x) : (n : R) ≤ float32 x := by
  have h1 := intCast_le_float32 x (n : Int) (by simpa using h)
  simpa using h1

/-- Whole numbers are stored as they are. -/
theorem float32_natCast (n : Nat) : float32 ((n : Nat) : R) = (n : R) :=
  le_antisymm (float32_le_natCast _ n (le_refl _)) (natCast_le_float32 _ n (le_refl _))

/-- Half a whole number below `2 ^ 24` is stored as it is. -/
theorem float32_half (n : Nat) (h : n < 16777216) :
    float32 ((1 / 2 : R) * (n : R)) = (1 / 2 : R) * (n : R) := by
  have hx : ¬ ((2 : R) ^ 23 ≤ |(1 / 2 : R) * (n : R)| * 2 ^ 0) := by
    have hn : (n : R) < 16777216 := by exact_mod_cast h
    have h0 : (0 : R) ≤ (n : R) := Nat.cast_nonneg n
    rw [abs_of_nonneg (by positivity)]
    norm_num
    linarith
  have hm : 1 ≤ fractionBits ((1 / 2 : R) * (n : R)) 0 149 := by
    have h1 : fractionBits ((1 / 2 : R) * (n : R)) 0 149
        = fractionBits ((1 / 2 : R) * (n : R)) 1 148 := by
      conv_lhs => unfold fractionBits
      rw [if_neg hx]
    rw [h1]
    exact le_fractionBits _ 148 1
  obtain ⟨k, hk⟩ := Nat.exists_eq_add_of_le hm
  unfold float32
  rw [hk]
  have hv : (1 / 2 : R) * (n : R) * 2 ^ (1 + k) = (((n : Int) * 2 ^ k : Int) : R) := by
    push_cast
    rw [pow_add]
    ring
  rw [hv, roundHalfEven_intCast]
  push_cast
  rw [pow_add]
  field_simp
  ring

end Rounding

/-! ## Loops over arrays in closed form -/

theorem overwrite_zero {α : Type} (h : Nat → α → α) (a : List α) : overwrite 0 h a = a := by
  apply List.ext_getElem?
  intro j
  simp [overwrite]

theorem length_overwrite {α : Type} (n : Nat) (h : Nat → α → α) (a : List α) :
    (overwrite n h a).length = a.length := by
  simp [overwrite]

theorem overwrite_succ {α : Type} (d : α) (h : Nat → α → α) (n : Nat) (a : List α) :
    (overwrite n h a).set n (h n ((overwrite n h a).getD n d)) = overwrite (n + 1) h a := by
  apply List.ext_getElem?
  intro j
  simp only [overwrite, List.getElem?_set, List.getElem?_mapIdx, List.length_mapIdx,
    List.getD_eq_getElem?_getD]
  by_cases hj : n = j
  · subst hj
    by_cases hl : n < a.length
    · simp [hl, List.getElem?_eq_getElem hl]
    · have : a[n]? = none := List.getElem?_eq_none (by omega)
      simp [hl, this]
  · have h1 : (j < n + 1) = (j < n) := by
      apply propext
      omega
    simp [hj, h1]

theorem overwrite_succ_const {α : Type} (g : Nat → α) (n : Nat) (a : List α) :
    (overwrite n (fun j _ => g j) a).set n (g n) = overwrite (n + 1) (fun j _ => g j) a := by
  apply List.ext_getElem?
  intro j
  simp only [overwrite, List.getElem?_set, List.getElem?_mapIdx, List.length_mapIdx]
  by_cases hj : n = j
  · subst hj
    by_cases hl : n < a.length
    · simp [hl, List.getElem?_eq_getElem hl]
    · have : a[n]? = none := List.getElem?_eq_none (by omega)
      simp [hl, this]
  · have h1 : (j < n + 1) = (j < n) := by
      apply propext
      omega
    simp [hj, h1]

/-- Cell `j` of an overwritten array, for a cell the array has. -/
theorem getD_overwrite {α : Type} (d : α) (h : Nat → α → α) (n j : Nat) (a : List α)
    (hl : j < a.length) :
    (overwrite n h a).getD j d = if j < n then h j (a.getD j d) else a.getD j d := by
  by_cases hj : j < n <;>
    simp [overwrite, List.getD_eq_getElem?_getD, List.getElem?_mapIdx,
      List.getElem?_eq_getElem hl, hj]

/-- Overwriting twice is overwriting once with the composed rule. -/
theorem overwrite_overwrite {α : Type} (n : Nat) (h g : Nat → α → α) (a : List α) :
    overwrite n g (overwrite n h a) = overwrite n (fun j v => g j (h j v)) a := by
  apply List.ext_getElem?
  intro j
  simp only [overwrite, List.getElem?_mapIdx, Option.map_map]
  congr 1
  funext v
  by_cases hj : j < n <;> simp [hj]

namespace Kiss

variable {R : Type} [LinearOrderedField R]

theorem forLoop_scaleBin (c : R) (n : Nat) (s : Kiss R) :
    forLoop (scaleBin c) n s =
      { s with
        mReal := overwrite n (fun _ v => v * c) s.mReal
        mImag := overwrite n (fun _ v => v * c) s.mImag } := by
  induction n with
  | zero => simp [forLoop, overwrite_zero]
  | succ n ih =>
    simp only [forLoop, ih, scaleBin]
    rw [overwrite_succ 0 (fun _ v => v * c) n s.mReal,
      overwrite_succ 0 (fun _ v => v * c) n s.mImag]

theorem forLoop_polarBin (E : Engine R) (n : Nat) (s : Kiss R) :
    forLoop (polarBin E) n s =
      { s with
        mReal := overwrite n (fun j _ => E.cos (s.mPhase.getD j 0) * s.mAmplitude.getD j 0) s.mReal
        mImag := overwrite n (fun j _ => E.sin (s.mPhase.getD j 0) * s.mAmplitude.getD j 0) s.mImag } := by
  induction n with
  | zero => simp [forLoop, overwrite_zero]
  | succ n ih =>
    simp only [forLoop, ih, polarBin]
    rw [overwrite_succ_const (fun j => E.cos (s.mPhase.getD j 0) * s.mAmplitude.getD j 0) n s.mReal,
      overwrite_succ_const (fun j => E.sin (s.mPhase.getD j 0) * s.mAmplitude.getD j 0) n s.mImag]

theorem forLoop_polarizeBin (E : Engine R) (n : Nat) (s : Kiss R) :
    forLoop (polarizeBin E) n s =
      { s with
        mAmplitude := overwrite n
          (fun j _ => E.sqrt (s.mReal.getD j 0 ^ 2 + s.mImag.getD j 0 ^ 2)) s.mAmplitude
        mPhase := overwrite n
          (fun j _ => E.atan2 (s.mImag.getD j 0) (s.mReal.getD j 0)) s.mPhase } := by
  induction n with
  | zero => simp [forLoop, overwrite_zero]
  | succ n ih =>
    simp only [forLoop, ih, polarizeBin]
    rw [overwrite_succ_const
        (fun j => E.sqrt (s.mReal.getD j 0 ^ 2 + s.mImag.getD j 0 ^ 2)) n s.mAmplitude,
      overwrite_succ_const (fun j => E.atan2 (s.mImag.getD j 0) (s.mReal.getD j 0)) n s.mPhase]

theorem forLoop_scaleAmplitude (c : R) (n : Nat) (s : Kiss R) :
    forLoop (scaleAmplitude c) n s =
      { s with mAmplitude := overwrite n (fun _ v => v * c) s.mAmplitude } := by
  induction n with
  | zero => simp [forLoop, overwrite_zero]
  | succ n ih =>
    simp only [forLoop, ih, scaleAmplitude]
    rw [overwrite_succ 0 (fun _ v => v * c) n s.mAmplitude]

theorem forLoop_unwindowSample (n : Nat) (s : Kiss R) :
    forLoop unwindowSample n s =
      { s with mData := overwrite n (fun j v => v * s.mInverseWindow.getD j 0) s.mData } := by
  induction n with
  | zero => simp [forLoop, overwrite_zero]
  | succ n ih =>
    simp only [forLoop, ih, unwindowSample]
    rw [overwrite_succ 0 (fun j v => v * s.mInverseWindow.getD j 0) n s.mData]

theorem forLoop_scaleSample (c : R) (n : Nat) (s : Kiss R) :
    forLoop (scaleSample c) n s =
      { s with mData := overwrite n (fun _ v => v * c) s.mData } := by
  induction n with
  | zero => simp [forLoop, overwrite_zero]
  | succ n ih =>
    simp only [forLoop, ih, scaleSample]
    rw [overwrite_succ 0 (fun _ v => v * c) n s.mData]

variable [FloorRing R]

theorem filterLoop_running (cx : List (kiss_fft_cpx R)) (n : Nat) (s : Kiss R)
    (hr : s.mRunning = true) :
    filterLoop cx n s =
      ({ s with
          mReal := overwrite n
            (fun j _ => if applies s j then (cx.getD j ⟨0, 0⟩).r else 0) s.mReal
          mImag := overwrite n
            (fun j _ => if applies s j then (cx.getD j ⟨0, 0⟩).i else 0) s.mImag }, false) := by
  induction n with
  | zero => simp [filterLoop, overwrite_zero]
  | succ n ih =>
    simp only [filterLoop, ih, filterBin, hr]
    rw [← overwrite_succ_const
        (fun j => if applies s j then (cx.getD j ⟨0, 0⟩).r else 0) n s.mReal,
      ← overwrite_succ_const
        (fun j => if applies s j then (cx.getD j ⟨0, 0⟩).i else 0) n s.mImag]
    simp [applies]

theorem transform_stopped (E : Engine R) (s : Kiss R) (hr : s.mRunning = false) :
    transform E s = s := by
  simp [transform, hr]

theorem transform_fresh (E : Engine R) (s : Kiss R) (hu : s.mCartesianUpdated = true)
    (hn : s.mCartesianNormalized = true) : transform E s = s := by
  cases hr : s.mRunning <;> simp [transform, refresh, hr, hu, hn]

/-- The forward path in closed form: window, transform, filter, then scale. -/
theorem transform_forward (E : Engine R) (s : Kiss R) (hr : s.mRunning = true)
    (hu : s.mCartesianUpdated = false) (hp : s.mPolarUpdated = false)
    (hn : s.mCartesianNormalized = false) :
    transform E s =
      { s with
        mReal := overwrite s.mBinSize
          (fun j _ => (if applies s j then ((forwardFFT E s).getD j ⟨0, 0⟩).r else 0)
            * (2 / s.mWindowSum)) s.mReal
        mImag := overwrite s.mBinSize
          (fun j _ => (if applies s j then ((forwardFFT E s).getD j ⟨0, 0⟩).i else 0)
            * (2 / s.mWindowSum)) s.mImag
        mCartesianUpdated := true
        mCartesianNormalized := true } := by
  simp [transform, refresh, hr, hu, hp, hn, filterLoop_running, forLoop_scaleBin,
    overwrite_overwrite, forwardFFT]

/-- What `transform` leaves alone: everything but the cartesian arrays and their flags. -/
theorem transform_frame (E : Engine R) (s : Kiss R) :
    transform E s =
      { s with
        mReal := (transform E s).mReal
        mImag := (transform E s).mImag
        mCartesianUpdated := (transform E s).mCartesianUpdated
        mCartesianNormalized := (transform E s).mCartesianNormalized } := by
  rcases s with ⟨a, d, im, iw, ph, re, w, bn, dn, ws, cn, cu, dnm, du, pn, pu, fh, fl, run⟩
  cases run <;> cases cu <;> cases pu <;> cases cn <;> cases pn <;>
    simp [transform, refresh, filterLoop_running, forLoop_scaleBin, forLoop_polarBin]

theorem transform_flags (E : Engine R) (s : Kiss R) (hr : s.mRunning = true) :
    (transform E s).mCartesianUpdated = true ∧ (transform E s).mCartesianNormalized = true := by
  rcases s with ⟨a, d, im, iw, ph, re, w, bn, dn, ws, cn, cu, dnm, du, pn, pu, fh, fl, run⟩
  simp only at hr
  subst hr
  cases cu <;> cases pu <;> cases cn <;> cases pn <;>
    simp [transform, refresh, filterLoop_running, forLoop_scaleBin, forLoop_polarBin]

theorem transform_idem (E : Engine R) (s : Kiss R) :
    transform E (transform E s) = transform E s := by
  cases hr : s.mRunning
  · rw [transform_stopped E s hr, transform_stopped E s hr]
  · exact transform_fresh E _ (transform_flags E s hr).1 (transform_flags E s hr).2

theorem transform_mRunning (E : Engine R) (s : Kiss R) :
    (transform E s).mRunning = s.mRunning := by
  have h := congrArg Kiss.mRunning (transform_frame E s)
  exact h

theorem transform_mPolarUpdated (E : Engine R) (s : Kiss R) :
    (transform E s).mPolarUpdated = s.mPolarUpdated := by
  have h := congrArg Kiss.mPolarUpdated (transform_frame E s)
  exact h

theorem transform_mPolarNormalized (E : Engine R) (s : Kiss R) :
    (transform E s).mPolarNormalized = s.mPolarNormalized := by
  have h := congrArg Kiss.mPolarNormalized (transform_frame E s)
  exact h

theorem transform_mDataUpdated (E : Engine R) (s : Kiss R) :
    (transform E s).mDataUpdated = s.mDataUpdated := by
  have h := congrArg Kiss.mDataUpdated (transform_frame E s)
  exact h

theorem transform_mDataNormalized (E : Engine R) (s : Kiss R) :
    (transform E s).mDataNormalized = s.mDataNormalized := by
  have h := congrArg Kiss.mDataNormalized (transform_frame E s)
  exact h

theorem transform_mAmplitude (E : Engine R) (s : Kiss R) :
    (transform E s).mAmplitude = s.mAmplitude := by
  have h := congrArg Kiss.mAmplitude (transform_frame E s)
  exact h

theorem transform_mPhase (E : Engine R) (s : Kiss R) :
    (transform E s).mPhase = s.mPhase := by
  have h := congrArg Kiss.mPhase (transform_frame E s)
  exact h

theorem transform_mData (E : Engine R) (s : Kiss R) :
    (transform E s).mData = s.mData := by
  have h := congrArg Kiss.mData (transform_frame E s)
  exact h

theorem transform_mBinSize (E : Engine R) (s : Kiss R) :
    (transform E s).mBinSize = s.mBinSize := by
  have h := congrArg Kiss.mBinSize (transform_frame E s)
  exact h

theorem transform_mWindowSum (E : Engine R) (s : Kiss R) :
    (transform E s).mWindowSum = s.mWindowSum := by
  have h := congrArg Kiss.mWindowSum (transform_frame E s)
  exact h

/-- Polar values that are current and normalized: `cartesianToPolar` does nothing. -/
theorem cartesianToPolar_fresh (E : Engine R) (s : Kiss R) (hu : s.mPolarUpdated = true)
    (hn : s.mPolarNormalized = true) : cartesianToPolar E s = s := by
  simp [cartesianToPolar, hu, hn]

/-- After `cartesianToPolar` the polar values are current and normalized. -/
theorem cartesianToPolar_flags (E : Engine R) (s : Kiss R) :
    (cartesianToPolar E s).mPolarUpdated = true ∧
      (cartesianToPolar E s).mPolarNormalized = true := by
  cases hu : s.mPolarUpdated <;> cases hn : s.mPolarNormalized <;>
    cases hc : (transform E s).mCartesianNormalized <;>
    simp [cartesianToPolar, hu, hn, hc, forLoop_polarizeBin, forLoop_scaleAmplitude]

/-- What `cartesianToPolar` leaves alone. -/
theorem cartesianToPolar_frame (E : Engine R) (s : Kiss R) :
    cartesianToPolar E s =
      { (if s.mPolarUpdated then s else transform E s) with
        mAmplitude := (cartesianToPolar E s).mAmplitude
        mPhase := (cartesianToPolar E s).mPhase
        mPolarUpdated := true
        mPolarNormalized := true } := by
  cases hu : s.mPolarUpdated
  · cases hc : (transform E s).mCartesianNormalized <;>
      simp [cartesianToPolar, hu, hc, forLoop_polarizeBin, forLoop_scaleAmplitude]
  · cases hn : s.mPolarNormalized
    · simp [cartesianToPolar, hu, hn, forLoop_scaleAmplitude]
    · rw [cartesianToPolar_fresh E s hu hn]
      rcases s with ⟨a, d, im, iw, ph, re, w, bn, dn, ws, cn, cu, dnm, du, pn, pu, fh, fl, run⟩
      simp only at hu hn
      subst hu
      subst hn
      rfl

/-- Time domain values that are current and normalized: `getData` does nothing. -/
theorem getData_fresh (E : Engine R) (s : Kiss R) (hu : s.mDataUpdated = true)
    (hn : s.mDataNormalized = true) : getData E s = (s, s.mData) := by
  simp [getData, hu, hn]

/-- After `getData` the time domain values are current and normalized. -/
theorem getData_flags (E : Engine R) (s : Kiss R) :
    (getData E s).1.mDataUpdated = true ∧ (getData E s).1.mDataNormalized = true := by
  cases hu : s.mDataUpdated <;> cases hn : s.mDataNormalized <;>
    simp [getData, hu, hn, forLoop_unwindowSample, forLoop_scaleSample, transform_mDataUpdated]

/-- The array `getData` returns is the sample buffer of the analyzer after the call. -/
theorem getData_snd (E : Engine R) (s : Kiss R) : (getData E s).2 = (getData E s).1.mData :=
  rfl

/-- What `getData` leaves alone. -/
theorem getData_frame (E : Engine R) (s : Kiss R) :
    (getData E s).1 =
      { (if s.mDataUpdated then s else transform E s) with
        mData := (getData E s).1.mData
        mDataUpdated := true
        mDataNormalized := true } := by
  cases hu : s.mDataUpdated
  · simp [getData, hu, forLoop_unwindowSample, forLoop_scaleSample]
  · cases hn : s.mDataNormalized
    · simp [getData, hu, hn, forLoop_scaleSample]
    · rw [getData_fresh E s hu hn]
      rcases s with ⟨a, d, im, iw, ph, re, w, bn, dn, ws, cn, cu, dnm, du, pn, pu, fh, fl, run⟩
      simp only at hu hn
      subst hu
      subst hn
      rfl

/-- The inverse path of `getData` in closed form: inverse transform of the current
cartesian values, times the inverse window, times the normalizer. -/
theorem getData_stale (E : Engine R) (s : Kiss R) (hu : s.mDataUpdated = false) :
    (getData E s).2 =
      overwrite s.mDataSize
        (fun j v => v * s.mInverseWindow.getD j 0 *
          (s.mWindowSum / ((wrapInt32 (2 * (s.mDataSize : Int)) : Int) : R)))
        (memcpy s.mData
          (E.kiss_fftri s.mDataSize
            ((List.range s.mBinSize).map
              (fun i => ⟨(transform E s).mReal.getD i 0, (transform E s).mImag.getD i 0⟩)))
          s.mDataSize) := by
  have h1 := congrArg Kiss.mDataSize (transform_frame E s)
  have h2 := congrArg Kiss.mInverseWindow (transform_frame E s)
  have h3 := congrArg Kiss.mData (transform_frame E s)
  have h5 := congrArg Kiss.mBinSize (transform_frame E s)
  have h4 := transform_mWindowSum E s
  simp only at h1 h2 h3 h5
  simp [getData, hu, forLoop_unwindowSample, forLoop_scaleSample, overwrite_overwrite,
    h1, h2, h3, h4, h5]

theorem transform_mInverseWindow (E : Engine R) (s : Kiss R) :
    (transform E s).mInverseWindow = s.mInverseWindow := by
  have h := congrArg Kiss.mInverseWindow (transform_frame E s)
  exact h

theorem transform_mWindow (E : Engine R) (s : Kiss R) :
    (transform E s).mWindow = s.mWindow := by
  have h := congrArg Kiss.mWindow (transform_frame E s)
  exact h

theorem transform_mDataSize (E : Engine R) (s : Kiss R) :
    (transform E s).mDataSize = s.mDataSize := by
  have h := congrArg Kiss.mDataSize (transform_frame E s)
  exact h

theorem transform_mFrequencyHigh (E : Engine R) (s : Kiss R) :
    (transform E s).mFrequencyHigh = s.mFrequencyHigh := by
  have h := congrArg Kiss.mFrequencyHigh (transform_frame E s)
  exact h

theorem transform_mFrequencyLow (E : Engine R) (s : Kiss R) :
    (transform E s).mFrequencyLow = s.mFrequencyLow := by
  have h := congrArg Kiss.mFrequencyLow (transform_frame E s)
  exact h

theorem cartesianToPolar_mData (E : Engine R) (s : Kiss R) :
    (cartesianToPolar E s).mData = s.mData := by
  have h := congrArg Kiss.mData (cartesianToPolar_frame E s)
  cases hu : s.mPolarUpdated <;> simpa [hu, transform_mData] using h

theorem cartesianToPolar_mInverseWindow (E : Engine R) (s : Kiss R) :
    (cartesianToPolar E s).mInverseWindow = s.mInverseWindow := by
  have h := congrArg Kiss.mInverseWindow (cartesianToPolar_frame E s)
  cases hu : s.mPolarUpdated <;> simpa [hu, transform_mInverseWindow] using h

theorem cartesianToPolar_mWindow (E : Engine R) (s : Kiss R) :
    (cartesianToPolar E s).mWindow = s.mWindow := by
  have h := congrArg Kiss.mWindow (cartesianToPolar_frame E s)
  cases hu : s.mPolarUpdated <;> simpa [hu, transform_mWindow] using h

theorem cartesianToPolar_mBinSize (E : Engine R) (s : Kiss R) :
    (cartesianToPolar E s).mBinSize = s.mBinSize := by
  have h := congrArg Kiss.mBinSize (cartesianToPolar_frame E s)
  cases hu : s.mPolarUpdated <;> simpa [hu, transform_mBinSize] using h

theorem cartesianToPolar_mDataSize (E : Engine R) (s : Kiss R) :
    (cartesianToPolar E s).mDataSize = s.mDataSize := by
  have h := congrArg Kiss.mDataSize (cartesianToPolar_frame E s)
  cases hu : s.mPolarUpdated <;> simpa [hu, transform_mDataSize] using h

theorem cartesianToPolar_mWindowSum (E : Engine R) (s : Kiss R) :
    (cartesianToPolar E s).mWindowSum = s.mWindowSum := by
  have h := congrArg Kiss.mWindowSum (cartesianToPolar_frame E s)
  cases hu : s.mPolarUpdated <;> simpa [hu, transform_mWindowSum] using h

theorem cartesianToPolar_mDataNormalized (E : Engine R) (s : Kiss R) :
    (cartesianToPolar E s).mDataNormalized = s.mDataNormalized := by
  have h := congrArg Kiss.mDataNormalized (cartesianToPolar_frame E s)
  cases hu : s.mPolarUpdated <;> simpa [hu, transform_mDataNormalized] using h

theorem cartesianToPolar_mDataUpdated (E : Engine R) (s : Kiss R) :
    (cartesianToPolar E s).mDataUpdated = s.mDataUpdated := by
  have h := congrArg Kiss.mDataUpdated (cartesianToPolar_frame E s)
  cases hu : s.mPolarUpdated <;> simpa [hu, transform_mDataUpdated] using h

theorem cartesianToPolar_mFrequencyHigh (E : Engine R) (s : Kiss R) :
    (cartesianToPolar E s).mFrequencyHigh = s.mFrequencyHigh := by
  have h := congrArg Kiss.mFrequencyHigh (cartesianToPolar_frame E s)
  cases hu : s.mPolarUpdated <;> simpa [hu, transform_mFrequencyHigh] using h

theorem cartesianToPolar_mFrequencyLow (E : Engine R) (s : Kiss R) :
    (cartesianToPolar E s).mFrequencyLow = s.mFrequencyLow := by
  have h := congrArg Kiss.mFrequencyLow (cartesianToPolar_frame E s)
  cases hu : s.mPolarUpdated <;> simpa [hu, transform_mFrequencyLow] using h

theorem cartesianToPolar_mRunning (E : Engine R) (s : Kiss R) :
    (cartesianToPolar E s).mRunning = s.mRunning := by
  have h := congrArg Kiss.mRunning (cartesianToPolar_frame E s)
  cases hu : s.mPolarUpdated <;> simpa [hu, transform_mRunning] using h

theorem getData_mAmplitude (E : Engine R) (s : Kiss R) :
    (getData E s).1.mAmplitude = s.mAmplitude := by
  have h := congrArg Kiss.mAmplitude (getData_frame E s)
  cases hu : s.mDataUpdated <;> simpa [hu, transform_mAmplitude] using h

theorem getData_mInverseWindow (E : Engine R) (s : Kiss R) :
    (getData E s).1.mInverseWindow = s.mInverseWindow := by
  have h := congrArg Kiss.mInverseWindow (getData_frame E s)
  cases hu : s.mDataUpdated <;> simpa [hu, transform_mInverseWindow] using h

theorem getData_mPhase (E : Engine R) (s : Kiss R) :
    (getData E s).1.mPhase = s.mPhase := by
  have h := congrArg Kiss.mPhase (getData_frame E s)
  cases hu : s.mDataUpdated <;> simpa [hu, transform_mPhase] using h

theorem getData_mWindow (E : Engine R) (s : Kiss R) :
    (getData E s).1.mWindow = s.mWindow := by
  have h := congrArg Kiss.mWindow (getData_frame E s)
  cases hu : s.mDataUpdated <;> simpa [hu, transform_mWindow] using h

theorem getData_mBinSize (E : Engine R) (s : Kiss R) :
    (getData E s).1.mBinSize = s.mBinSize := by
  have h := congrArg Kiss.mBinSize (getData_frame E s)
  cases hu : s.mDataUpdated <;> simpa [hu, transform_mBinSize] using h

theorem getData_mDataSize (E : Engine R) (s : Kiss R) :
    (getData E s).1.mDataSize = s.mDataSize := by
  have h := congrArg Kiss.mDataSize (getData_frame E s)
  cases hu : s.mDataUpdated <;> simpa [hu, transform_mDataSize] using h

theorem getData_mWindowSum (E : Engine R) (s : Kiss R) :
    (getData E s).1.mWindowSum = s.mWindowSum := by
  have h := congrArg Kiss.mWindowSum (getData_frame E s)
  cases hu : s.mDataUpdated <;> simpa [hu, transform_mWindowSum] using h

theorem getData_mPolarNormalized (E : Engine R) (s : Kiss R) :
    (getData E s).1.mPolarNormalized = s.mPolarNormalized := by
  have h := congrArg Kiss.mPolarNormalized (getData_frame E s)
  cases hu : s.mDataUpdated <;> simpa [hu, transform_mPolarNormalized] using h

theorem getData_mPolarUpdated (E : Engine R) (s : Kiss R) :
    (getData E s).1.mPolarUpdated = s.mPolarUpdated := by
  have h := congrArg Kiss.mPolarUpdated (getData_frame E s)
  cases hu : s.mDataUpdated <;> simpa [hu, transform_mPolarUpdated] using h

theorem getData_mFrequencyHigh (E : Engine R) (s : Kiss R) :
    (getData E s).1.mFrequencyHigh = s.mFrequencyHigh := by
  have h := congrArg Kiss.mFrequencyHigh (getData_frame E s)
  cases hu : s.mDataUpdated <;> simpa [hu, transform_mFrequencyHigh] using h

theorem getData_mFrequencyLow (E : Engine R) (s : Kiss R) :
    (getData E s).1.mFrequencyLow = s.mFrequencyLow := by
  have h := congrArg Kiss.mFrequencyLow (getData_frame E s)
  cases hu : s.mDataUpdated <;> simpa [hu, transform_mFrequencyLow] using h

theorem getData_mRunning (E : Engine R) (s : Kiss R) :
    (getData E s).1.mRunning = s.mRunning := by
  have h := congrArg Kiss.mRunning (getData_frame E s)
  cases hu : s.mDataUpdated <;> simpa [hu, transform_mRunning] using h

/-- The cartesian part of the analyzer after `cartesianToPolar` is that of the analyzer
after `transform` when the polar values were stale, and is untouched otherwise. -/
theorem cartesianToPolar_cartesian (E : Engine R) (s : Kiss R) :
    (cartesianToPolar E s).mReal = (if s.mPolarUpdated then s else transform E s).mReal ∧
    (cartesianToPolar E s).mImag = (if s.mPolarUpdated then s else transform E s).mImag ∧
    (cartesianToPolar E s).mCartesianUpdated
      = (if s.mPolarUpdated then s else transform E s).mCartesianUpdated ∧
    (cartesianToPolar E s).mCartesianNormalized
      = (if s.mPolarUpdated then s else transform E s).mCartesianNormalized := by
  have h1 := congrArg Kiss.mReal (cartesianToPolar_frame E s)
  have h2 := congrArg Kiss.mImag (cartesianToPolar_frame E s)
  have h3 := congrArg Kiss.mCartesianUpdated (cartesianToPolar_frame E s)
  have h4 := congrArg Kiss.mCartesianNormalized (cartesianToPolar_frame E s)
  exact ⟨h1, h2, h3, h4⟩

/-- The cartesian part of the analyzer after `getData` is that of the analyzer after
`transform` when the time domain values were stale, and is untouched otherwise. -/
theorem getData_cartesian (E : Engine R) (s : Kiss R) :
    (getData E s).1.mReal = (if s.mDataUpdated then s else transform E s).mReal ∧
    (getData E s).1.mImag = (if s.mDataUpdated then s else transform E s).mImag ∧
    (getData E s).1.mCartesianUpdated
      = (if s.mDataUpdated then s else transform E s).mCartesianUpdated ∧
    (getData E s).1.mCartesianNormalized
      = (if s.mDataUpdated then s else transform E s).mCartesianNormalized := by
  have h1 := congrArg Kiss.mReal (getData_frame E s)
  have h2 := congrArg Kiss.mImag (getData_frame E s)
  have h3 := congrArg Kiss.mCartesianUpdated (getData_frame E s)
  have h4 := congrArg Kiss.mCartesianNormalized (getData_frame E s)
  exact ⟨h1, h2, h3, h4⟩

end Kiss

/-! ## Sequences of getter calls -/

section Getters

variable {R : Type} [LinearOrderedField R] [FloorRing R]

open Kiss

/-- A property that every getter call preserves holds after a sequence of getter calls. -/
theorem callAll_preserves (E : Engine R) (P : Kiss R → Prop)
    (hstep : ∀ (g : Getter) (t : Kiss R), P t → P (g.call E t).1) :
    ∀ (gs : List Getter) (s : Kiss R), P s → P (callAll E gs s) := by
  intro gs
  induction gs with
  | nil => intro s hs; exact hs
  | cons g gs ih => intro s hs; exact ih _ (hstep g s hs)

theorem call_mRunning (E : Engine R) (g : Getter) (s : Kiss R) :
    (g.call E s).1.mRunning = s.mRunning := by
  cases g <;>
    simp [Getter.call, getAmplitude, getPhase, getReal, getImaginary,
      cartesianToPolar_mRunning, transform_mRunning, getData_mRunning]

/-- Current, normalized polar values survive every getter call. -/
theorem call_polar_stable (E : Engine R) (g : Getter) (s : Kiss R)
    (hu : s.mPolarUpdated = true) (hn : s.mPolarNormalized = true) :
    (g.call E s).1.mPolarUpdated = true ∧ (g.call E s).1.mPolarNormalized = true ∧
      (g.call E s).1.mAmplitude = s.mAmplitude ∧ (g.call E s).1.mPhase = s.mPhase := by
  cases g <;>
    simp [Getter.call, getAmplitude, getPhase, getReal, getImaginary,
      cartesianToPolar_fresh E s hu hn, transform_mPolarUpdated, transform_mPolarNormalized,
      transform_mAmplitude, transform_mPhase, getData_mPolarUpdated, getData_mPolarNormalized,
      getData_mAmplitude, getData_mPhase, hu, hn]

/-- Current, normalized time domain values survive every getter call. -/
theorem call_data_stable (E : Engine R) (g : Getter) (s : Kiss R)
    (hu : s.mDataUpdated = true) (hn : s.mDataNormalized = true) :
    (g.call E s).1.mDataUpdated = true ∧ (g.call E s).1.mDataNormalized = true ∧
      (g.call E s).1.mData = s.mData := by
  cases g <;>
    simp [Getter.call, getAmplitude, getPhase, getReal, getImaginary,
      getData_fresh E s hu hn, transform_mDataUpdated, transform_mDataNormalized,
      transform_mData, cartesianToPolar_mDataUpdated, cartesianToPolar_mDataNormalized,
      cartesianToPolar_mData, hu, hn]

theorem callAll_polar_stable (E : Engine R) (gs : List Getter) (s : Kiss R)
    (hu : s.mPolarUpdated = true) (hn : s.mPolarNormalized = true) :
    (callAll E gs s).mPolarUpdated = true ∧ (callAll E gs s).mPolarNormalized = true ∧
      (callAll E gs s).mAmplitude = s.mAmplitude ∧ (callAll E gs s).mPhase = s.mPhase := by
  refine callAll_preserves E
    (fun t => t.mPolarUpdated = true ∧ t.mPolarNormalized = true ∧
      t.mAmplitude = s.mAmplitude ∧ t.mPhase = s.mPhase) ?_ gs s ⟨hu, hn, rfl, rfl⟩
  intro g t ⟨h1, h2, h3, h4⟩
  obtain ⟨k1, k2, k3, k4⟩ := call_polar_stable E g t h1 h2
  exact ⟨k1, k2, k3.trans h3, k4.trans h4⟩

theorem callAll_data_stable (E : Engine R) (gs : List Getter) (s : Kiss R)
    (hu : s.mDataUpdated = true) (hn : s.mDataNormalized = true) :
    (callAll E gs s).mDataUpdated = true ∧ (callAll E gs s).mDataNormalized = true ∧
      (callAll E gs s).mData = s.mData := by
  refine callAll_preserves E
    (fun t => t.mDataUpdated = true ∧ t.mDataNormalized = true ∧ t.mData = s.mData)
    ?_ gs s ⟨hu, hn, rfl⟩
  intro g t ⟨h1, h2, h3⟩
  obtain ⟨k1, k2, k3⟩ := call_data_stable E g t h1 h2
  exact ⟨k1, k2, k3.trans h3⟩

end Getters

section FreshBlock

variable {R : Type} [LinearOrderedField R] [FloorRing R]

open Kiss

/-- With stale polar values, `cartesianToPolar` after `transform` is `cartesianToPolar`. -/
theorem cartesianToPolar_transform (E : Engine R) (s : Kiss R)
    (hp : s.mPolarUpdated = false) :
    cartesianToPolar E (transform E s) = cartesianToPolar E s := by
  have h1 : (transform E s).mPolarUpdated = false := by rw [transform_mPolarUpdated, hp]
  simp [cartesianToPolar, h1, hp, transform_idem]

/-- A running analyzer that holds a block just set is, after any sequence of getter calls,
in one of three states: untouched, transformed, or transformed and polarized. -/
theorem callAll_fresh_block (E : Engine R) (s : Kiss R) (hr : s.mRunning = true)
    (hp : s.mPolarUpdated = false) (hdu : s.mDataUpdated = true)
    (hdn : s.mDataNormalized = true) (gs : List Getter) :
    callAll E gs s = s ∨ callAll E gs s = transform E s ∨
      callAll E gs s = cartesianToPolar E s := by
  refine callAll_preserves E
    (fun t => t = s ∨ t = transform E s ∨ t = cartesianToPolar E s) ?_ gs s (Or.inl rfl)
  have hT : transform E (transform E s) = transform E s := transform_idem E s
  have hTd : getData E (transform E s) = (transform E s, (transform E s).mData) :=
    getData_fresh E _ (by rw [transform_mDataUpdated, hdu]) (by rw [transform_mDataNormalized, hdn])
  have hTp : cartesianToPolar E (transform E s) = cartesianToPolar E s :=
    cartesianToPolar_transform E s hp
  have hPp : cartesianToPolar E (cartesianToPolar E s) = cartesianToPolar E s :=
    cartesianToPolar_fresh E _ (cartesianToPolar_flags E s).1 (cartesianToPolar_flags E s).2
  have hPd : getData E (cartesianToPolar E s)
      = (cartesianToPolar E s, (cartesianToPolar E s).mData) :=
    getData_fresh E _ (by rw [cartesianToPolar_mDataUpdated, hdu])
      (by rw [cartesianToPolar_mDataNormalized, hdn])
  have hPt : transform E (cartesianToPolar E s) = cartesianToPolar E s := by
    apply transform_fresh
    · rw [(cartesianToPolar_cartesian E s).2.2.1]
      simp [hp, (transform_flags E s hr).1]
    · rw [(cartesianToPolar_cartesian E s).2.2.2]
      simp [hp, (transform_flags E s hr).2]
  have hsd : getData E s = (s, s.mData) := getData_fresh E s hdu hdn
  intro g t ht
  rcases ht with ht | ht | ht <;> rw [ht] <;> cases g <;>
    simp [Getter.call, getAmplitude, getPhase, getReal, getImaginary, hT, hTd, hTp, hPp, hPd,
      hPt, hsd]

end FreshBlock

section FreshBlockValues

variable {R : Type} [LinearOrderedField R]

open Kiss

theorem getD_memcpy {α : Type} (d : α) (dst src : List α) (n k : Nat) (hk : k < n)
    (hn : n ≤ src.length) : (memcpy dst src n).getD k d = src.getD k d := by
  have h1 : k < (src.take n).length := by
    rw [List.length_take]
    omega
  simp only [memcpy, List.getD_eq_getElem?_getD]
  rw [List.getElem?_append_left h1, List.getElem?_take_of_lt hk]

theorem memcpy_eq_take {α : Type} (dst src : List α) (n : Nat) (hd : dst.length = n) :
    memcpy dst src n = src.take n := by
  simp [memcpy, List.drop_eq_nil_of_le (Nat.le_of_eq hd)]

/-- The transform of the windowed block: what `forwardFFT` is after `setData`. -/
theorem forwardFFT_setData (E : Engine R) (s : Kiss R) (lo hi : R) (x : List R)
    (hx : s.mDataSize ≤ x.length) :
    forwardFFT E (setData x (setFilter lo hi s)) =
      E.kiss_fftr s.mDataSize
        ((List.range s.mDataSize).map (fun k => x.getD k 0 * s.mWindow.getD k 0)) := by
  simp only [forwardFFT, setData, setFilter]
  congr 1
  apply List.map_congr_left
  intro k hk
  rw [List.mem_range] at hk
  rw [getD_memcpy 0 s.mData x s.mDataSize k hk hx]

variable [FloorRing R]

/-- After any getter calls on a block just set, `transform` yields the cartesian arrays of
the first forward transform. -/
theorem transform_callAll_fresh_block (E : Engine R) (s : Kiss R) (hr : s.mRunning = true)
    (hp : s.mPolarUpdated = false) (hdu : s.mDataUpdated = true)
    (hdn : s.mDataNormalized = true) (gs : List Getter) :
    (transform E (callAll E gs s)).mReal = (transform E s).mReal ∧
      (transform E (callAll E gs s)).mImag = (transform E s).mImag := by
  have hPt : transform E (cartesianToPolar E s) = cartesianToPolar E s := by
    apply transform_fresh
    · rw [(cartesianToPolar_cartesian E s).2.2.1]
      simp [hp, (transform_flags E s hr).1]
    · rw [(cartesianToPolar_cartesian E s).2.2.2]
      simp [hp, (transform_flags E s hr).2]
  have hc := cartesianToPolar_cartesian E s
  simp only [hp, Bool.false_eq_true, if_false] at hc
  rcases callAll_fresh_block E s hr hp hdu hdn gs with h | h | h <;> rw [h]
  · exact ⟨rfl, rfl⟩
  · rw [transform_idem]
    exact ⟨rfl, rfl⟩
  · rw [hPt]
    exact ⟨hc.1, hc.2.1⟩

/-- Bin `i` of the cartesian arrays after the forward path. -/
theorem transform_forward_getD (E : Engine R) (s : Kiss R) (hr : s.mRunning = true)
    (hu : s.mCartesianUpdated = false) (hp : s.mPolarUpdated = false)
    (hn : s.mCartesianNormalized = false) (i : Nat) (hi : i < s.mBinSize)
    (hre : s.mReal.length = s.mBinSize) (him : s.mImag.length = s.mBinSize) :
    (transform E s).mReal.getD i 0 =
        (if applies s i then ((forwardFFT E s).getD i ⟨0, 0⟩).r else 0) * (2 / s.mWindowSum) ∧
      (transform E s).mImag.getD i 0 =
        (if applies s i then ((forwardFFT E s).getD i ⟨0, 0⟩).i else 0) * (2 / s.mWindowSum) := by
  rw [transform_forward E s hr hu hp hn]
  constructor
  · simp only
    rw [getD_overwrite 0 _ _ _ _ (by omega)]
    simp [hi]
  · simp only
    rw [getD_overwrite 0 _ _ _ _ (by omega)]
    simp [hi]

end FreshBlockValues

section Spectrum

variable {R : Type} [LinearOrderedField R] [FloorRing R]

open Kiss

/-- Bin `i` of what `getReal` and `getImaginary` return at any time after `setFilter`,
`setData` and any getter calls: the engine value of the windowed block where the pass band
test of `transform` holds (it compares `i` with the `float` products) and zero elsewhere,
times `2 / mWindowSum`. -/
theorem spectrum_after_block (E : Engine R) (s : Kiss R) (low high : R) (x : List R)
    (gs : List Getter) (i : Nat) (hr : s.mRunning = true) (hal : Allocated s)
    (hx : s.mDataSize ≤ x.length) (hi : i < s.mBinSize) :
    (getReal E (callAll E gs (setData x (setFilter low high s)))).2.getD i 0 =
        (if float32 (low * (s.mBinSize : R)) ≤ (i : R) ∧
            (i : R) ≤ float32 (high * (s.mBinSize : R)) then
          ((E.kiss_fftr s.mDataSize ((List.range s.mDataSize).map
            (fun k => x.getD k 0 * s.mWindow.getD k 0))).getD i ⟨0, 0⟩).r else 0)
          * (2 / s.mWindowSum) ∧
      (getImaginary E (callAll E gs (setData x (setFilter low high s)))).2.getD i 0 =
        (if float32 (low * (s.mBinSize : R)) ≤ (i : R) ∧
            (i : R) ≤ float32 (high * (s.mBinSize : R)) then
          ((E.kiss_fftr s.mDataSize ((List.range s.mDataSize).map
            (fun k => x.getD k 0 * s.mWindow.getD k 0))).getD i ⟨0, 0⟩).i else 0)
          * (2 / s.mWindowSum) := by
  obtain ⟨-, him, -, hre, -, -, -⟩ := hal
  have h0 := transform_callAll_fresh_block E (setData x (setFilter low high s))
    (by simpa [setData, setFilter] using hr) (by simp [setData]) (by simp [setData])
    (by simp [setData]) gs
  have h1 := transform_forward_getD E (setData x (setFilter low high s))
    (by simpa [setData, setFilter] using hr) (by simp [setData]) (by simp [setData])
    (by simp [setData]) i (by simpa [setData, setFilter] using hi)
    (by simpa [setData, setFilter] using hre) (by simpa [setData, setFilter] using him)
  rw [forwardFFT_setData E s low high x hx] at h1
  simp only [getReal, getImaginary, h0.1, h0.2, h1.1, h1.2]
  simp [applies, setData, setFilter]

end Spectrum

section Sample

open Kiss

/-- The analyzer `sampleKiss` is the one `create( 4 )` builds with `sampleEngine`. -/
theorem create_sampleEngine (dataUpdated0 : Bool) :
    create sampleEngine 4 dataUpdated0 = some (sampleKiss dataUpdated0) := by
  simp [create, setDataSize, forLoop, windowSample, sampleEngine, sampleKiss]
  norm_num

/-- Zero is stored as it is. -/
theorem float32_zero {R : Type} [LinearOrderedField R] [FloorRing R] :
    float32 (0 : R) = 0 := by
  have h := float32_natCast (R := R) 0
  simpa using h

/-- The `float` products of the sample filters with the three bins of `sampleKiss`: `1.5`
is stored as it is, and three times the `float` nearest to one third, `1 + 2 ^ -25`, is
stored as `1`. -/
theorem float32_sample :
    float32 (3 / 2 : ℚ) = 3 / 2 ∧ float32 (3 : ℚ) = 3 ∧
      float32 (33554433 / 33554432 : ℚ) = 1 := by
  refine ⟨?_, ?_, ?_⟩
  · have h := float32_half (R := ℚ) 3 (by norm_num)
    norm_num at h
    exact h
  · have h := float32_natCast (R := ℚ) 3
    simpa using h
  · have hm : fractionBits (33554433 / 33554432 : ℚ) 0 149 = 23 := by
      norm_num [fractionBits, abs_of_pos]
    have hf : Int.floor ((33554433 / 33554432 : ℚ) * 2 ^ 23) = 8388608 := by
      rw [Int.floor_eq_iff]
      norm_num
    unfold float32 roundHalfEven
    rw [hm, hf]
    norm_num

end Sample

/-! ## The claims -/

section Claims

variable {R : Type} [LinearOrderedField R] [FloorRing R]

open Kiss

end Claims

section Polar

variable {R : Type} [LinearOrderedField R] [FloorRing R]

open Kiss

/-- The polar arrays a running analyzer computes from stale polar values: magnitude and
angle of the cartesian arrays `transform` leaves, with no further scaling. -/
theorem cartesianToPolar_stale (E : Engine R) (s : Kiss R) (hr : s.mRunning = true)
    (hp : s.mPolarUpdated = false) :
    (cartesianToPolar E s).mAmplitude =
        overwrite s.mBinSize
          (fun j _ => E.sqrt ((transform E s).mReal.getD j 0 ^ 2
            + (transform E s).mImag.getD j 0 ^ 2)) s.mAmplitude ∧
      (cartesianToPolar E s).mPhase =
        overwrite s.mBinSize
          (fun j _ => E.atan2 ((transform E s).mImag.getD j 0) ((transform E s).mReal.getD j 0))
          s.mPhase := by
  simp [cartesianToPolar, hp, forLoop_polarizeBin, (transform_flags E s hr).2,
    transform_mBinSize, transform_mAmplitude, transform_mPhase]

end Polar

section Claims

variable {R : Type} [LinearOrderedField R] [FloorRing R]

open Kiss

end Claims

section Claims

variable {R : Type} [LinearOrderedField R] [FloorRing R]

open Kiss

/-- After `setData( x )` and any getter calls, `getData` returns the sample buffer as
`setData` left it, whatever the filter: neither of its two branches runs. -/
theorem getData_after_setData (E : Engine R) (s : Kiss R) (x : List R) (gs : List Getter) :
    (getData E (callAll E gs (setData x s))).2 = memcpy s.mData x s.mDataSize := by
  obtain ⟨h1, h2, h3⟩ := callAll_data_stable E gs (setData x s) (by simp [setData])
    (by simp [setData])
  rw [getData_fresh E _ h1 h2]
  simpa [setData] using h3

/-- C4, evaluated at the failing input.  The four sample analyzer, block `1, 0, -1, 0`:
with the filter `( 0, 0.5 )` and with the pass-all filter alike `getData` returns the block
itself, while the array the claim describes (`reconstruction`) is another one under the
filter `( 0, 0.5 )`. -/
theorem getData_returns_raw_block :
    (getData sampleEngine
        (setData [1, 0, -1, 0] (setFilter 0 (1 / 2) (sampleKiss true)))).2 = [1, 0, -1, 0] ∧
      (getData sampleEngine
        (setData [1, 0, -1, 0] (setFilter 0 1 (sampleKiss true)))).2 = [1, 0, -1, 0] ∧
      reconstruction sampleEngine
        (setData [1, 0, -1, 0] (setFilter 0 (1 / 2) (sampleKiss true)))
        = [0, -1 / 4, -3 / 4, 0] := by
  refine ⟨by decide, by decide, ?_⟩
  simp [reconstruction, transform, refresh, filterLoop, filterBin, forLoop, scaleBin, setData,
    setFilter, sampleKiss, sampleEngine, memcpy, dft4, idft4, List.range, List.range.loop]
  norm_num [float32_zero, float32_sample]

/-- C5. After `setFilter( 0, NONE )` and `setData( x )`, whatever the block length and the
block, every sample `i < dataSize` of what `getData` returns is within `1e-3` of `x[ i ]`
(the two window endpoints included). -/
theorem round_trip_within_tolerance (E : Engine R) (s : Kiss R) (x : List R) (i : Nat)
    (hx : s.mDataSize ≤ x.length) (hi : i < s.mDataSize) :
    |(getData E (setData x (setFilterPreset 0 Filter.NONE s))).2.getD i 0 - x.getD i 0|
      ≤ 1 / 1000 := by
  have h := getData_after_setData E (setFilterPreset 0 Filter.NONE s) x []
  simp only [callAll] at h
  rw [h]
  have hs : (setFilterPreset (0 : R) Filter.NONE s).mDataSize = s.mDataSize := by
    simp [setFilterPreset, setFilter, Filter.NONE, Filter.HIGH_PASS, Filter.LOW_PASS]
  rw [hs, getD_memcpy 0 _ x s.mDataSize i hi hx, sub_self, abs_zero]
  norm_num

/-- Witness of C5: the four sample analyzer, block `1, 0, -1, 0`, sample 2. -/
theorem round_trip_within_tolerance_witness :
    ((sampleKiss true).mDataSize ≤ ([1, 0, -1, 0] : List ℚ).length ∧
      2 < (sampleKiss true).mDataSize) ∧
    |(getData sampleEngine
        (setData [1, 0, -1, 0] (setFilterPreset 0 Filter.NONE (sampleKiss true)))).2.getD 2 0
      - ([1, 0, -1, 0] : List ℚ).getD 2 0| ≤ 1 / 1000 :=
  ⟨⟨by decide, by decide⟩,
    round_trip_within_tolerance sampleEngine (sampleKiss true) [1, 0, -1, 0] 2 (by decide)
      (by decide)⟩

end Claims

section Claims

variable {R : Type} [LinearOrderedField R]

open Kiss

/-- C6. For an analyzer whose sample buffer has `dataSize` cells and a block `x` of at
least `dataSize` samples, `setData( x )` leaves the buffer holding exactly the first
`dataSize` samples of `x`, the four spectral flags false and the two data flags true, and
changes nothing else. -/
theorem setData_effect (s : Kiss R) (x : List R) (hd : s.mData.length = s.mDataSize)
    (hx : s.mDataSize ≤ x.length) :
    (setData x s).mData = x.take s.mDataSize ∧
      (setData x s).mData.length = s.mDataSize ∧
      (∀ i, i < s.mDataSize → (setData x s).mData.getD i 0 = x.getD i 0) ∧
      (setData x s).mCartesianUpdated = false ∧
      (setData x s).mCartesianNormalized = false ∧
      (setData x s).mPolarUpdated = false ∧
      (setData x s).mPolarNormalized = false ∧
      (setData x s).mDataUpdated = true ∧
      (setData x s).mDataNormalized = true ∧
      (setData x s).mDataSize = s.mDataSize ∧
      (setData x s).mBinSize = s.mBinSize ∧
      (setData x s).mWindow = s.mWindow ∧
      (setData x s).mInverseWindow = s.mInverseWindow ∧
      (setData x s).mWindowSum = s.mWindowSum ∧
      (setData x s).mFrequencyLow = s.mFrequencyLow ∧
      (setData x s).mFrequencyHigh = s.mFrequencyHigh ∧
      (setData x s).mRunning = s.mRunning ∧
      (setData x s).mReal = s.mReal ∧
      (setData x s).mImag = s.mImag ∧
      (setData x s).mAmplitude = s.mAmplitude ∧
      (setData x s).mPhase = s.mPhase := by
  have h1 : (setData x s).mData = x.take s.mDataSize := by
    simp only [setData]
    exact memcpy_eq_take s.mData x s.mDataSize hd
  refine ⟨h1, ?_, ?_, rfl, rfl, rfl, rfl, rfl, rfl, rfl, rfl, rfl, rfl, rfl, rfl, rfl, rfl,
    rfl, rfl, rfl, rfl⟩
  · rw [h1, List.length_take]
    omega
  · intro i hi
    simp only [setData]
    exact getD_memcpy 0 s.mData x s.mDataSize i hi hx

/-- Witness of C6: the four sample analyzer and the block `1, 0, -1, 0, 9`. -/
theorem setData_effect_witness :
    ((sampleKiss false).mData.length = (sampleKiss false).mDataSize ∧
      (sampleKiss false).mDataSize ≤ ([1, 0, -1, 0, 9] : List ℚ).length) ∧
    (setData [1, 0, -1, 0, 9] (sampleKiss false)).mData
      = ([1, 0, -1, 0, 9] : List ℚ).take (sampleKiss false).mDataSize :=
  ⟨⟨by decide, by decide⟩,
    (setData_effect (sampleKiss false) [1, 0, -1, 0, 9] (by decide) (by decide)).1⟩

/-- C8. The preset form of `setFilter` sets the bounds `( low, high )` to `( 0, f )` for
`LOW_PASS`, `( f, 1 )` for `HIGH_PASS`, `( f, f )` for `NOTCH` and `( 0, 1 )` for `NONE`
and changes nothing else, whatever the preset value passed; `removeFilter` is
`setFilter( 0, NONE )` and leaves the bounds at `( 0, 1 )`. -/
theorem setFilter_presets (s : Kiss R) (f : R) :
    setFilterPreset f Filter.LOW_PASS s = { s with mFrequencyLow := 0, mFrequencyHigh := f } ∧
      setFilterPreset f Filter.HIGH_PASS s
        = { s with mFrequencyLow := f, mFrequencyHigh := 1 } ∧
      setFilterPreset f Filter.NOTCH s = { s with mFrequencyLow := f, mFrequencyHigh := f } ∧
      setFilterPreset f Filter.NONE s = { s with mFrequencyLow := 0, mFrequencyHigh := 1 } ∧
      removeFilter s = setFilterPreset 0 Filter.NONE s ∧
      removeFilter s = { s with mFrequencyLow := 0, mFrequencyHigh := 1 } ∧
      (∀ filter : Int, setFilterPreset f filter s =
        { s with
          mFrequencyLow := (setFilterPreset f filter s).mFrequencyLow
          mFrequencyHigh := (setFilterPreset f filter s).mFrequencyHigh }) := by
  refine ⟨?_, ?_, ?_, ?_, rfl, ?_, ?_⟩
  · simp [setFilterPreset, setFilter, Filter.LOW_PASS, Filter.HIGH_PASS]
  · simp [setFilterPreset, setFilter, Filter.HIGH_PASS]
  · simp [setFilterPreset, setFilter, Filter.NOTCH, Filter.NONE, Filter.LOW_PASS,
      Filter.HIGH_PASS]
  · simp [setFilterPreset, setFilter, Filter.NONE, Filter.LOW_PASS, Filter.HIGH_PASS]
  · simp [removeFilter, setFilterPreset, setFilter, Filter.NONE, Filter.LOW_PASS,
      Filter.HIGH_PASS]
  · intro filter
    unfold setFilterPreset
    split_ifs <;> simp [setFilter]

end Claims

section FilterChange

variable {R : Type} [LinearOrderedField R] [FloorRing R]

open Kiss

end FilterChange

section Claims

variable {R : Type} [LinearOrderedField R] [FloorRing R]

open Kiss

/-- C9. In every analyzer state, running or stopped, a second call of `getAmplitude`,
`getPhase` or `getData` with no `setData` in between returns the array of the first call
and leaves the analyzer as the first call left it.  With any getter calls between the two
calls the second call still returns the array of the first call and changes nothing in the
analyzer it is called on, and the arrays and flags the getter maintains are as the first
call left them. -/
theorem getters_idempotent (E : Engine R) (s : Kiss R) (gs : List Getter) :
    getAmplitude E (getAmplitude E s).1 = getAmplitude E s ∧
      getPhase E (getPhase E s).1 = getPhase E s ∧
      getData E (getData E s).1 = getData E s ∧
      getAmplitude E (callAll E gs (getAmplitude E s).1)
        = (callAll E gs (getAmplitude E s).1, (getAmplitude E s).2) ∧
      getPhase E (callAll E gs (getPhase E s).1)
        = (callAll E gs (getPhase E s).1, (getPhase E s).2) ∧
      getData E (callAll E gs (getData E s).1)
        = (callAll E gs (getData E s).1, (getData E s).2) ∧
      ((callAll E gs (cartesianToPolar E s)).mAmplitude = (cartesianToPolar E s).mAmplitude ∧
        (callAll E gs (cartesianToPolar E s)).mPhase = (cartesianToPolar E s).mPhase ∧
        (callAll E gs (cartesianToPolar E s)).mPolarUpdated
          = (cartesianToPolar E s).mPolarUpdated ∧
        (callAll E gs (cartesianToPolar E s)).mPolarNormalized
          = (cartesianToPolar E s).mPolarNormalized) ∧
      ((callAll E gs (getData E s).1).mData = (getData E s).1.mData ∧
        (callAll E gs (getData E s).1).mDataUpdated = (getData E s).1.mDataUpdated ∧
        (callAll E gs (getData E s).1).mDataNormalized = (getData E s).1.mDataNormalized) := by
  have hp := cartesianToPolar_flags E s
  have hd := getData_flags E s
  obtain ⟨p1, p2, p3, p4⟩ := callAll_polar_stable E gs (cartesianToPolar E s) hp.1 hp.2
  obtain ⟨d1, d2, d3⟩ := callAll_data_stable E gs (getData E s).1 hd.1 hd.2
  refine ⟨?_, ?_, ?_, ?_, ?_, ?_, ⟨p3, p4, by rw [p1, hp.1], by rw [p2, hp.2]⟩,
    ⟨d3, by rw [d1, hd.1], by rw [d2, hd.2]⟩⟩
  · simp only [getAmplitude, cartesianToPolar_fresh E _ hp.1 hp.2]
  · simp only [getPhase, cartesianToPolar_fresh E _ hp.1 hp.2]
  · rw [getData_fresh E _ hd.1 hd.2]
    rfl
  · simp only [getAmplitude, cartesianToPolar_fresh E _ p1 p2, p3]
  · simp only [getPhase, cartesianToPolar_fresh E _ p1 p2, p4]
  · rw [getData_fresh E _ d1 d2, d3]
    rfl

end Claims

section Stop

variable {R : Type} [LinearOrderedField R]

open Kiss

theorem forLoop_windowSample_mRunning (E : Engine R) (n : Nat) (s : Kiss R) :
    (forLoop (windowSample E) n s).mRunning = s.mRunning := by
  induction n with
  | zero => rfl
  | succ n ih => simpa [forLoop, windowSample] using ih

theorem setDataSize_mRunning (E : Engine R) (dataSize : Int) (s t : Kiss R)
    (h : setDataSize E dataSize s = some t) : t.mRunning = s.mRunning := by
  unfold setDataSize at h
  split_ifs at h
  simp only [Option.some.injEq] at h
  rw [← h, forLoop_windowSample_mRunning]

variable [FloorRing R]

/-- No public operation sets the running flag of a stopped analyzer. -/
theorem step_stopped (E : Engine R) (op : Op R) (s t : Kiss R) (hs : s.mRunning = false)
    (h : op.step E s = some t) : t.mRunning = false := by
  cases op with
  | setDataSize n =>
    rw [setDataSize_mRunning E n s t h, hs]
  | get g =>
    simp only [Op.step, Option.some.injEq] at h
    rw [← h, call_mRunning, hs]
  | setFilterPreset f k =>
    simp only [Op.step, Option.some.injEq] at h
    rw [← h]
    unfold setFilterPreset
    split_ifs <;> simpa [setFilter] using hs
  | removeFilter =>
    simp only [Op.step, Option.some.injEq] at h
    rw [← h]
    simpa [removeFilter, setFilterPreset, setFilter, Filter.NONE, Filter.LOW_PASS,
      Filter.HIGH_PASS] using hs
  | _ =>
    simp only [Op.step, Option.some.injEq] at h
    rw [← h]
    first
      | exact hs
      | rfl

/-- Stop is terminal for the running flag: after `stop`, no sequence of public operations
sets it again. -/
theorem run_stopped (E : Engine R) :
    ∀ (ops : List (Op R)) (s t : Kiss R), s.mRunning = false → run E ops s = some t →
      t.mRunning = false := by
  intro ops
  induction ops with
  | nil =>
    intro s t hs h
    simp only [run, Option.some.injEq] at h
    rw [← h, hs]
  | cons op ops ih =>
    intro s t hs h
    simp only [run] at h
    cases h1 : op.step E s with
    | none => simp [h1] at h
    | some u =>
      rw [h1] at h
      exact ih u t (step_stopped E op s u hs h1) h

/-- On a stopped analyzer `getReal` and `getImaginary` return the cached arrays and change
nothing, whatever the engine; so does `getData` when the two data flags are set. -/
theorem getters_stopped (E : Engine R) (s : Kiss R) (hs : s.mRunning = false) :
    getReal E s = (s, s.mReal) ∧ getImaginary E s = (s, s.mImag) ∧
      (s.mDataUpdated = true → s.mDataNormalized = true → getData E s = (s, s.mData)) := by
  refine ⟨?_, ?_, fun hu hn => getData_fresh E s hu hn⟩
  · simp [getReal, transform_stopped E s hs]
  · simp [getImaginary, transform_stopped E s hs]

end Stop

section Claims

open Kiss

/-- C10, evaluated at the failing input.  `create( 4 )` with the flag `mDataUpdated`, which
no constructor code assigns, reading false, then `stop()`, then `getData()`: the analyzer
is stopped, yet the call changes it (the flag becomes true), and with an inverse transform
that returns a marker block the array returned is no longer the cached one. -/
theorem getData_after_stop_recomputes :
    create sampleEngine 4 false = some (sampleKiss false) ∧
      (stop (sampleKiss false)).mRunning = false ∧
      (getData sampleEngine (stop (sampleKiss false))).1 ≠ stop (sampleKiss false) ∧
      create markedEngine 4 false = some (sampleKiss false) ∧
      (stop (sampleKiss false)).mData = [0, 0, 0, 0] ∧
      (getData markedEngine (stop (sampleKiss false))).2 = [0, 1 / 4, 1 / 4, 0] := by
  refine ⟨?_, rfl, ?_, ?_, rfl, ?_⟩
  · simp [create, setDataSize, forLoop, windowSample, sampleEngine, sampleKiss]
    norm_num
  · intro h
    have h1 := congrArg Kiss.mDataUpdated h
    rw [(getData_flags sampleEngine (stop (sampleKiss false))).1] at h1
    exact absurd h1 (by decide)
  · simp [create, setDataSize, forLoop, windowSample, sampleEngine, markedEngine, sampleKiss]
    norm_num
  · simp [getData, transform, stop, forLoop, unwindowSample, scaleSample, memcpy, wrapInt32,
      sampleEngine, markedEngine, sampleKiss]
    norm_num

end Claims

/-! ## Resizing -/

section Resize

variable {R : Type} [LinearOrderedField R]

open Kiss

theorem forLoop_windowSample_mAmplitude (E : Engine R) (n : Nat) (s : Kiss R) :
    (forLoop (windowSample E) n s).mAmplitude = s.mAmplitude := by
  induction n with
  | zero => rfl
  | succ n ih => simpa [forLoop, windowSample] using ih

theorem forLoop_windowSample_mData (E : Engine R) (n : Nat) (s : Kiss R) :
    (forLoop (windowSample E) n s).mData = s.mData := by
  induction n with
  | zero => rfl
  | succ n ih => simpa [forLoop, windowSample] using ih

theorem forLoop_windowSample_mImag (E : Engine R) (n : Nat) (s : Kiss R) :
    (forLoop (windowSample E) n s).mImag = s.mImag := by
  induction n with
  | zero => rfl
  | succ n ih => simpa [forLoop, windowSample] using ih

theorem forLoop_windowSample_mPhase (E : Engine R) (n : Nat) (s : Kiss R) :
    (forLoop (windowSample E) n s).mPhase = s.mPhase := by
  induction n with
  | zero => rfl
  | succ n ih => simpa [forLoop, windowSample] using ih

theorem forLoop_windowSample_mReal (E : Engine R) (n : Nat) (s : Kiss R) :
    (forLoop (windowSample E) n s).mReal = s.mReal := by
  induction n with
  | zero => rfl
  | succ n ih => simpa [forLoop, windowSample] using ih

theorem forLoop_windowSample_mBinSize (E : Engine R) (n : Nat) (s : Kiss R) :
    (forLoop (windowSample E) n s).mBinSize = s.mBinSize := by
  induction n with
  | zero => rfl
  | succ n ih => simpa [forLoop, windowSample] using ih

theorem forLoop_windowSample_mDataSize (E : Engine R) (n : Nat) (s : Kiss R) :
    (forLoop (windowSample E) n s).mDataSize = s.mDataSize := by
  induction n with
  | zero => rfl
  | succ n ih => simpa [forLoop, windowSample] using ih

theorem forLoop_windowSample_mCartesianNormalized (E : Engine R) (n : Nat) (s : Kiss R) :
    (forLoop (windowSample E) n s).mCartesianNormalized = s.mCartesianNormalized := by
  induction n with
  | zero => rfl
  | succ n ih => simpa [forLoop, windowSample] using ih

theorem forLoop_windowSample_mCartesianUpdated (E : Engine R) (n : Nat) (s : Kiss R) :
    (forLoop (windowSample E) n s).mCartesianUpdated = s.mCartesianUpdated := by
  induction n with
  | zero => rfl
  | succ n ih => simpa [forLoop, windowSample] using ih

theorem forLoop_windowSample_mDataNormalized (E : Engine R) (n : Nat) (s : Kiss R) :
    (forLoop (windowSample E) n s).mDataNormalized = s.mDataNormalized := by
  induction n with
  | zero => rfl
  | succ n ih => simpa [forLoop, windowSample] using ih

theorem forLoop_windowSample_mDataUpdated (E : Engine R) (n : Nat) (s : Kiss R) :
    (forLoop (windowSample E) n s).mDataUpdated = s.mDataUpdated := by
  induction n with
  | zero => rfl
  | succ n ih => simpa [forLoop, windowSample] using ih

theorem forLoop_windowSample_mPolarNormalized (E : Engine R) (n : Nat) (s : Kiss R) :
    (forLoop (windowSample E) n s).mPolarNormalized = s.mPolarNormalized := by
  induction n with
  | zero => rfl
  | succ n ih => simpa [forLoop, windowSample] using ih

theorem forLoop_windowSample_mPolarUpdated (E : Engine R) (n : Nat) (s : Kiss R) :
    (forLoop (windowSample E) n s).mPolarUpdated = s.mPolarUpdated := by
  induction n with
  | zero => rfl
  | succ n ih => simpa [forLoop, windowSample] using ih

theorem forLoop_windowSample_mFrequencyHigh (E : Engine R) (n : Nat) (s : Kiss R) :
    (forLoop (windowSample E) n s).mFrequencyHigh = s.mFrequencyHigh := by
  induction n with
  | zero => rfl
  | succ n ih => simpa [forLoop, windowSample] using ih

theorem forLoop_windowSample_mFrequencyLow (E : Engine R) (n : Nat) (s : Kiss R) :
    (forLoop (windowSample E) n s).mFrequencyLow = s.mFrequencyLow := by
  induction n with
  | zero => rfl
  | succ n ih => simpa [forLoop, windowSample] using ih

/-- A resize throws exactly for a negative size. -/
theorem setDataSize_isSome (E : Engine R) (dataSize : Int) (s : Kiss R) (h : 0 ≤ dataSize) :
    ∃ t, setDataSize E dataSize s = some t := by
  unfold setDataSize
  rw [if_neg (not_lt.mpr h)]
  exact ⟨_, rfl⟩

theorem setDataSize_nonneg (E : Engine R) (dataSize : Int) (s t : Kiss R)
    (h : setDataSize E dataSize s = some t) : 0 ≤ dataSize := by
  unfold setDataSize at h
  split_ifs at h with h0
  exact not_lt.mp h0

/-- Everything a resize assigns apart from the window, and the two flags it leaves. -/
theorem setDataSize_fields (E : Engine R) (dataSize : Int) (s t : Kiss R)
    (h : setDataSize E dataSize s = some t) :
    t.mDataSize = dataSize.toNat ∧ t.mBinSize = dataSize.toNat / 2 + 1 ∧
      t.mCartesianNormalized = true ∧ t.mCartesianUpdated = true ∧
      t.mDataNormalized = true ∧ t.mPolarNormalized = true ∧ t.mPolarUpdated = true ∧
      t.mDataUpdated = s.mDataUpdated ∧ t.mRunning = s.mRunning ∧
      t.mFrequencyLow = 0 ∧ t.mFrequencyHigh = 1 ∧
      t.mData = List.replicate dataSize.toNat 0 ∧
      t.mReal = List.replicate (dataSize.toNat / 2 + 1) 0 ∧
      t.mImag = List.replicate (dataSize.toNat / 2 + 1) 0 ∧
      t.mAmplitude = List.replicate (dataSize.toNat / 2 + 1) 0 ∧
      t.mPhase = List.replicate (dataSize.toNat / 2 + 1) 0 := by
  unfold setDataSize at h
  split_ifs at h
  simp only [Option.some.injEq] at h
  subst h
  simp only [forLoop_windowSample_mDataSize, forLoop_windowSample_mBinSize,
    forLoop_windowSample_mCartesianNormalized, forLoop_windowSample_mCartesianUpdated,
    forLoop_windowSample_mDataNormalized, forLoop_windowSample_mPolarNormalized,
    forLoop_windowSample_mPolarUpdated, forLoop_windowSample_mDataUpdated,
    forLoop_windowSample_mRunning, forLoop_windowSample_mFrequencyLow,
    forLoop_windowSample_mFrequencyHigh, forLoop_windowSample_mData,
    forLoop_windowSample_mReal, forLoop_windowSample_mImag, forLoop_windowSample_mAmplitude,
    forLoop_windowSample_mPhase, and_self]

/-- A resize reads nothing of the analyzer but the two flags it does not assign. -/
theorem setDataSize_congr (E : Engine R) (dataSize : Int) (s s' : Kiss R)
    (hr : s.mRunning = s'.mRunning) (hd : s.mDataUpdated = s'.mDataUpdated) :
    setDataSize E dataSize s = setDataSize E dataSize s' := by
  rcases s with ⟨a, d, im, iw, ph, re, w, bn, dn, ws, cn, cu, dnm, du, pn, pu, fh, fl, run⟩
  rcases s' with
    ⟨a', d', im', iw', ph', re', w', bn', dn', ws', cn', cu', dnm', du', pn', pu', fh', fl', run'⟩
  simp only at hr hd
  subst hr
  subst hd
  rfl

/-- The constructor is a resize of the object it has begun to fill. -/
theorem create_eq (E : Engine R) (dataSize : Int) (dataUpdated0 : Bool) :
    create E dataSize dataUpdated0 = setDataSize E dataSize (unbuilt dataSize dataUpdated0) :=
  rfl

end Resize

/-! ## Invariants of the reachable states -/

section Reachable

variable {R : Type} [LinearOrderedField R] [FloorRing R]

open Kiss

/-- A property that every public operation preserves holds after a sequence of public
operations. -/
theorem run_preserves (E : Engine R) (P : Kiss R → Prop)
    (hstep : ∀ (op : Op R) (s t : Kiss R), P s → op.step E s = some t → P t) :
    ∀ (ops : List (Op R)) (s t : Kiss R), P s → run E ops s = some t → P t := by
  intro ops
  induction ops with
  | nil =>
    intro s t hs h
    simp only [run, Option.some.injEq] at h
    rw [← h]
    exact hs
  | cons op ops ih =>
    intro s t hs h
    simp only [run] at h
    cases h1 : op.step E s with
    | none => simp [h1] at h
    | some u =>
      rw [h1] at h
      exact ih u t (hstep op s u hs h1) h

theorem run_append (E : Engine R) (ops1 ops2 : List (Op R)) (s : Kiss R) :
    run E (ops1 ++ ops2) s = (run E ops1 s).bind (run E ops2) := by
  induction ops1 generalizing s with
  | nil => rfl
  | cons op ops ih =>
    simp only [List.cons_append, run]
    cases op.step E s with
    | none => rfl
    | some u => exact ih u

/-- The cartesian flags are equal after `transform` when they were equal before. -/
theorem transform_paired (E : Engine R) (s : Kiss R)
    (h : s.mCartesianUpdated = s.mCartesianNormalized) :
    (transform E s).mCartesianUpdated = (transform E s).mCartesianNormalized := by
  cases hr : s.mRunning
  · rw [transform_stopped E s hr]
    exact h
  · rw [(transform_flags E s hr).1, (transform_flags E s hr).2]

/-- The three equalities of flags that hold between operations. -/
theorem call_paired (E : Engine R) (g : Getter) (s : Kiss R)
    (h : s.mCartesianUpdated = s.mCartesianNormalized ∧
      s.mPolarUpdated = s.mPolarNormalized ∧ s.mDataNormalized = true) :
    (g.call E s).1.mCartesianUpdated = (g.call E s).1.mCartesianNormalized ∧
      (g.call E s).1.mPolarUpdated = (g.call E s).1.mPolarNormalized ∧
      (g.call E s).1.mDataNormalized = true := by
  obtain ⟨h1, h2, h3⟩ := h
  have ht := transform_paired E s h1
  have hc : (cartesianToPolar E s).mCartesianUpdated
      = (cartesianToPolar E s).mCartesianNormalized := by
    rw [(cartesianToPolar_cartesian E s).2.2.1, (cartesianToPolar_cartesian E s).2.2.2]
    cases s.mPolarUpdated
    · exact ht
    · exact h1
  have hd : (getData E s).1.mCartesianUpdated = (getData E s).1.mCartesianNormalized := by
    rw [(getData_cartesian E s).2.2.1, (getData_cartesian E s).2.2.2]
    cases s.mDataUpdated
    · exact ht
    · exact h1
  have hp := cartesianToPolar_flags E s
  cases g
  · exact ⟨hc, hp.1.trans hp.2.symm, by
      simp only [Getter.call, getAmplitude, cartesianToPolar_mDataNormalized, h3]⟩
  · exact ⟨hc, hp.1.trans hp.2.symm, by
      simp only [Getter.call, getPhase, cartesianToPolar_mDataNormalized, h3]⟩
  · exact ⟨ht, by
      simp only [Getter.call, getReal, transform_mPolarUpdated, transform_mPolarNormalized, h2],
      by simp only [Getter.call, getReal, transform_mDataNormalized, h3]⟩
  · exact ⟨ht, by
      simp only [Getter.call, getImaginary, transform_mPolarUpdated,
        transform_mPolarNormalized, h2],
      by simp only [Getter.call, getImaginary, transform_mDataNormalized, h3]⟩
  · exact ⟨hd, by
      simp only [Getter.call, getData_mPolarUpdated, getData_mPolarNormalized, h2],
      (getData_flags E s).2⟩

/-- On a running analyzer current polar values come with current cartesian values, after
a getter call as before it. -/
theorem call_polar_cartesian (E : Engine R) (g : Getter) (s : Kiss R)
    (h : s.mRunning = true → s.mPolarUpdated = true → s.mCartesianUpdated = true) :
    (g.call E s).1.mRunning = true → (g.call E s).1.mPolarUpdated = true →
      (g.call E s).1.mCartesianUpdated = true := by
  intro hr hp
  rw [call_mRunning] at hr
  have ht := (transform_flags E s hr).1
  cases g
  · simp only [Getter.call, getAmplitude] at hp ⊢
    rw [(cartesianToPolar_cartesian E s).2.2.1]
    cases hu : s.mPolarUpdated
    · simpa using ht
    · simpa using h hr hu
  · simp only [Getter.call, getPhase] at hp ⊢
    rw [(cartesianToPolar_cartesian E s).2.2.1]
    cases hu : s.mPolarUpdated
    · simpa using ht
    · simpa using h hr hu
  · exact ht
  · exact ht
  · simp only [Getter.call, getData_mPolarUpdated] at hp ⊢
    rw [(getData_cartesian E s).2.2.1]
    cases hu : s.mDataUpdated
    · simpa using ht
    · simpa using h hr hp

end Reachable

section ReachableSteps

variable {R : Type} [LinearOrderedField R]

open Kiss

/-- The preset form of `setFilter` changes nothing but the two bounds. -/
theorem setFilterPreset_frame (frequency : R) (filter : Int) (s : Kiss R) :
    setFilterPreset frequency filter s =
      { s with
        mFrequencyLow := (setFilterPreset frequency filter s).mFrequencyLow
        mFrequencyHigh := (setFilterPreset frequency filter s).mFrequencyHigh } := by
  unfold setFilterPreset
  split_ifs <;> simp [setFilter]

variable [FloorRing R]

theorem call_sizes (E : Engine R) (g : Getter) (s : Kiss R) :
    (g.call E s).1.mBinSize = s.mBinSize ∧ (g.call E s).1.mDataSize = s.mDataSize := by
  cases g <;>
    simp [Getter.call, getAmplitude, getPhase, getReal, getImaginary,
      cartesianToPolar_mBinSize, cartesianToPolar_mDataSize, transform_mBinSize,
      transform_mDataSize, getData_mBinSize, getData_mDataSize]

theorem call_mDataUpdated (E : Engine R) (g : Getter) (s : Kiss R)
    (h : s.mDataUpdated = true) : (g.call E s).1.mDataUpdated = true := by
  cases g
  · simpa [Getter.call, getAmplitude, cartesianToPolar_mDataUpdated] using h
  · simpa [Getter.call, getPhase, cartesianToPolar_mDataUpdated] using h
  · simpa [Getter.call, getReal, transform_mDataUpdated] using h
  · simpa [Getter.call, getImaginary, transform_mDataUpdated] using h
  · exact (getData_flags E s).1

/-- Every public operation but `setDataSize` leaves the two sizes alone. -/
theorem step_sizes (E : Engine R) (op : Op R) (s t : Kiss R) (hop : op.isSetDataSize = false)
    (h : op.step E s = some t) : t.mBinSize = s.mBinSize ∧ t.mDataSize = s.mDataSize := by
  cases op with
  | setDataSize n => simp [Op.isSetDataSize] at hop
  | get g =>
    simp only [Op.step, Option.some.injEq] at h
    rw [← h]
    exact call_sizes E g s
  | setFilterPreset f k =>
    simp only [Op.step, Option.some.injEq] at h
    rw [← h, setFilterPreset_frame]
    exact ⟨rfl, rfl⟩
  | removeFilter =>
    simp only [Op.step, Option.some.injEq] at h
    rw [← h, removeFilter, setFilterPreset_frame]
    exact ⟨rfl, rfl⟩
  | _ =>
    simp only [Op.step, Option.some.injEq] at h
    rw [← h]
    exact ⟨rfl, rfl⟩

/-- The bin count is half the block length plus one, after a public operation as before. -/
theorem step_binSize (E : Engine R) (op : Op R) (s t : Kiss R)
    (hs : s.mBinSize = s.mDataSize / 2 + 1) (h : op.step E s = some t) :
    t.mBinSize = t.mDataSize / 2 + 1 := by
  cases hop : op.isSetDataSize
  · obtain ⟨h1, h2⟩ := step_sizes E op s t hop h
    rw [h1, h2]
    exact hs
  · cases op with
    | setDataSize n =>
      obtain ⟨h1, h2, -⟩ := setDataSize_fields E n s t h
      rw [h1, h2]
    | _ => simp [Op.isSetDataSize] at hop

/-- The three equalities of flags hold after a public operation as before. -/
theorem step_paired (E : Engine R) (op : Op R) (s t : Kiss R)
    (hs : s.mCartesianUpdated = s.mCartesianNormalized ∧
      s.mPolarUpdated = s.mPolarNormalized ∧ s.mDataNormalized = true)
    (h : op.step E s = some t) :
    t.mCartesianUpdated = t.mCartesianNormalized ∧
      t.mPolarUpdated = t.mPolarNormalized ∧ t.mDataNormalized = true := by
  cases op with
  | setDataSize n =>
    obtain ⟨-, -, h3, h4, h5, h6, h7, -⟩ := setDataSize_fields E n s t h
    rw [h3, h4, h5, h6, h7]
    exact ⟨rfl, rfl, rfl⟩
  | get g =>
    simp only [Op.step, Option.some.injEq] at h
    rw [← h]
    exact call_paired E g s hs
  | setData x =>
    simp only [Op.step, Option.some.injEq] at h
    rw [← h]
    exact ⟨rfl, rfl, rfl⟩
  | setFilterPreset f k =>
    simp only [Op.step, Option.some.injEq] at h
    rw [← h, setFilterPreset_frame]
    exact hs
  | removeFilter =>
    simp only [Op.step, Option.some.injEq] at h
    rw [← h, removeFilter, setFilterPreset_frame]
    exact hs
  | _ =>
    simp only [Op.step, Option.some.injEq] at h
    rw [← h]
    exact hs

/-- On a running analyzer current polar values come with current cartesian values, after
a public operation as before. -/
theorem step_polar_cartesian (E : Engine R) (op : Op R) (s t : Kiss R)
    (hs : s.mRunning = true → s.mPolarUpdated = true → s.mCartesianUpdated = true)
    (h : op.step E s = some t) :
    t.mRunning = true → t.mPolarUpdated = true → t.mCartesianUpdated = true := by
  cases op with
  | setDataSize n =>
    obtain ⟨-, -, -, h4, -⟩ := setDataSize_fields E n s t h
    intro _ _
    exact h4
  | get g =>
    simp only [Op.step, Option.some.injEq] at h
    rw [← h]
    exact call_polar_cartesian E g s hs
  | setData x =>
    simp only [Op.step, Option.some.injEq] at h
    rw [← h]
    intro _ hp
    simp [setData] at hp
  | stop =>
    simp only [Op.step, Option.some.injEq] at h
    rw [← h]
    intro hr
    simp [stop] at hr
  | setFilterPreset f k =>
    simp only [Op.step, Option.some.injEq] at h
    rw [← h, setFilterPreset_frame]
    exact hs
  | removeFilter =>
    simp only [Op.step, Option.some.injEq] at h
    rw [← h, removeFilter, setFilterPreset_frame]
    exact hs
  | _ =>
    simp only [Op.step, Option.some.injEq] at h
    rw [← h]
    exact hs

/-- No public operation clears `mDataUpdated`. -/
theorem step_mDataUpdated (E : Engine R) (op : Op R) (s t : Kiss R)
    (hs : s.mDataUpdated = true) (h : op.step E s = some t) : t.mDataUpdated = true := by
  cases op with
  | setDataSize n =>
    obtain ⟨-, -, -, -, -, -, -, h8, -⟩ := setDataSize_fields E n s t h
    rw [h8, hs]
  | get g =>
    simp only [Op.step, Option.some.injEq] at h
    rw [← h]
    exact call_mDataUpdated E g s hs
  | setData x =>
    simp only [Op.step, Option.some.injEq] at h
    rw [← h]
    rfl
  | setFilterPreset f k =>
    simp only [Op.step, Option.some.injEq] at h
    rw [← h, setFilterPreset_frame]
    exact hs
  | removeFilter =>
    simp only [Op.step, Option.some.injEq] at h
    rw [← h, removeFilter, setFilterPreset_frame]
    exact hs
  | _ =>
    simp only [Op.step, Option.some.injEq] at h
    rw [← h]
    exact hs

end ReachableSteps

section ReachableClaims

variable {R : Type} [LinearOrderedField R] [FloorRing R]

open Kiss

/-- Once `mDataUpdated` is set, or once `setData` is among the operations, the flag is set
after the operations. -/
theorem run_mDataUpdated (E : Engine R) :
    ∀ (ops : List (Op R)) (s t : Kiss R), run E ops s = some t →
      (s.mDataUpdated = true ∨ ∃ op ∈ ops, op.isSetData = true) → t.mDataUpdated = true := by
  intro ops
  induction ops with
  | nil =>
    intro s t h hs
    simp only [run, Option.some.injEq] at h
    rcases hs with hs | ⟨op, hop, -⟩
    · rw [← h, hs]
    · simp at hop
  | cons op ops ih =>
    intro s t h hs
    simp only [run] at h
    cases h1 : op.step E s with
    | none => simp [h1] at h
    | some u =>
      rw [h1] at h
      refine ih u t h ?_
      rcases hs with hs | ⟨op', hop, hset⟩
      · exact Or.inl (step_mDataUpdated E op s u hs h1)
      · rcases List.mem_cons.mp hop with heq | hmem
        · subst heq
          cases op' with
          | setData x =>
            simp only [Op.step, Option.some.injEq] at h1
            rw [← h1]
            exact Or.inl rfl
          | _ => simp [Op.isSetData] at hset
        · exact Or.inr ⟨op', hmem, hset⟩

end ReachableClaims

section ReachableClaims

variable {R : Type} [LinearOrderedField R]

open Kiss

/-- The flags of an analyzer just constructed. -/
theorem create_flags (E : Engine R) (n : Int) (b : Bool) (s0 : Kiss R)
    (hc : create E n b = some s0) :
    s0.mCartesianUpdated = true ∧ s0.mCartesianNormalized = true ∧
      s0.mPolarUpdated = true ∧ s0.mPolarNormalized = true ∧ s0.mDataNormalized = true ∧
      s0.mDataUpdated = b ∧ s0.mRunning = true := by
  rw [create_eq] at hc
  obtain ⟨-, -, h3, h4, h5, h6, h7, h8, h9, -⟩ := setDataSize_fields E n _ s0 hc
  exact ⟨h4, h3, h7, h6, h5, h8, h9⟩

variable [FloorRing R]

/-- C11. In every state reached from `create( n )` by public operations the bin count is
half the block length, rounded down, plus one; `create( n )` succeeds exactly for
`n ≥ 0` and leaves `getDataSize() = n`, and so does `setDataSize( n )`; every other
public operation (`setData`, both forms of `setFilter`, `removeFilter`, `stop`, the
getters) changes neither the block length nor the bin count. -/
theorem sizes_invariant (E : Engine R) (n : Int) (b : Bool) (s0 : Kiss R) (ops : List (Op R))
    (t : Kiss R) (hc : create E n b = some s0) (hr : run E ops s0 = some t) :
    getBinSize t = getDataSize t / 2 + 1 ∧
      0 ≤ n ∧ ((getDataSize s0 : Nat) : Int) = n ∧
      (∀ (m : Int) (b0 : Bool), 0 ≤ m → ∃ u, create E m b0 = some u) ∧
      (∀ (m : Int), 0 ≤ m → ∃ u, setDataSize E m t = some u) ∧
      (∀ (m : Int) (u : Kiss R), setDataSize E m t = some u →
        ((getDataSize u : Nat) : Int) = m ∧ getBinSize u = getDataSize u / 2 + 1) ∧
      (∀ (op : Op R) (u : Kiss R), op.isSetDataSize = false → op.step E t = some u →
        getBinSize u = getBinSize t ∧ getDataSize u = getDataSize t) := by
  have hn : 0 ≤ n := setDataSize_nonneg E n _ s0 hc
  obtain ⟨h1, h2, -⟩ := setDataSize_fields E n _ s0 hc
  refine ⟨?_, hn, ?_, ?_, ?_, ?_, ?_⟩
  · refine run_preserves E (fun u => u.mBinSize = u.mDataSize / 2 + 1)
      (fun op s u hs h => step_binSize E op s u hs h) ops s0 t ?_ hr
    show s0.mBinSize = s0.mDataSize / 2 + 1
    rw [h1, h2]
  · simp only [getDataSize, h1]
    exact Int.toNat_of_nonneg hn
  · intro m b0 hm
    exact setDataSize_isSome E m _ hm
  · intro m hm
    exact setDataSize_isSome E m t hm
  · intro m u hu
    have hm : 0 ≤ m := setDataSize_nonneg E m t u hu
    obtain ⟨k1, k2, -⟩ := setDataSize_fields E m t u hu
    simp only [getDataSize, getBinSize, k1, k2]
    exact ⟨Int.toNat_of_nonneg hm, trivial⟩
  · intro op u hop hu
    exact step_sizes E op t u hop hu

/-- Witness of C11: `create( 4 )`, then `setData` and `stop`. -/
theorem sizes_invariant_witness :
    (create sampleEngine 4 true = some (sampleKiss true) ∧
      run sampleEngine [Op.setData [1, 0, -1, 0], Op.stop] (sampleKiss true)
        = some (stop (setData [1, 0, -1, 0] (sampleKiss true)))) ∧
    getBinSize (stop (setData [1, 0, -1, 0] (sampleKiss true)))
      = getDataSize (stop (setData [1, 0, -1, 0] (sampleKiss true))) / 2 + 1 :=
  ⟨⟨create_sampleEngine true, rfl⟩,
    (sizes_invariant sampleEngine 4 true (sampleKiss true)
      [Op.setData [1, 0, -1, 0], Op.stop] (stop (setData [1, 0, -1, 0] (sampleKiss true)))
      (create_sampleEngine true) rfl).1⟩

/-- C17. In every state reached from `create( n )` by public operations, seen between
operations, `cartesianUpdated = cartesianNormalized`, `polarUpdated = polarNormalized` and
`dataNormalized` is set; and when `setData` is among the operations, `dataUpdated` is set,
so that `getData` returns the sample buffer without entering either of its branches. -/
theorem flags_paired (E : Engine R) (n : Int) (b : Bool) (s0 : Kiss R) (ops : List (Op R))
    (t : Kiss R) (hc : create E n b = some s0) (hr : run E ops s0 = some t) :
    (t.mCartesianUpdated = t.mCartesianNormalized ∧
        t.mPolarUpdated = t.mPolarNormalized ∧ t.mDataNormalized = true) ∧
      ((∃ op ∈ ops, op.isSetData = true) →
        t.mDataUpdated = true ∧ getData E t = (t, t.mData)) := by
  obtain ⟨c1, c2, c3, c4, c5, -, -⟩ := create_flags E n b s0 hc
  have hI := run_preserves E
    (fun u => u.mCartesianUpdated = u.mCartesianNormalized ∧
      u.mPolarUpdated = u.mPolarNormalized ∧ u.mDataNormalized = true)
    (fun op s u hs h => step_paired E op s u hs h) ops s0 t
    ⟨c1.trans c2.symm, c3.trans c4.symm, c5⟩ hr
  refine ⟨hI, ?_⟩
  intro hset
  have hd := run_mDataUpdated E ops s0 t hr (Or.inr hset)
  exact ⟨hd, getData_fresh E t hd hI.2.2⟩

/-- After a block has been set on the four sample analyzer, `setDataSize( 4 )` rebuilds the
analyzer `create( 4 )` builds, with `mDataUpdated` set. -/
theorem run_setData_setDataSize_sample :
    run sampleEngine [Op.setData [1, 0, -1, 0], Op.setDataSize 4] (sampleKiss false)
      = some (sampleKiss true) := by
  simp [run, Op.step, setData, setDataSize, forLoop, windowSample, sampleEngine, sampleKiss,
    memcpy]
  norm_num

/-- Witness of C17: `create( 4 )` with the unassigned flag reading false, then `setData`
and `setDataSize( 4 )`. -/
theorem flags_paired_witness :
    (create sampleEngine 4 false = some (sampleKiss false) ∧
      run sampleEngine [Op.setData [1, 0, -1, 0], Op.setDataSize 4] (sampleKiss false)
        = some (sampleKiss true) ∧
      (∃ op ∈ [Op.setData ([1, 0, -1, 0] : List ℚ), Op.setDataSize 4],
        op.isSetData = true)) ∧
    (sampleKiss true).mDataUpdated = true :=
  ⟨⟨create_sampleEngine false, run_setData_setDataSize_sample,
      ⟨Op.setData [1, 0, -1, 0], by simp, rfl⟩⟩,
    ((flags_paired sampleEngine 4 false (sampleKiss false)
      [Op.setData [1, 0, -1, 0], Op.setDataSize 4] (sampleKiss true)
      (create_sampleEngine false) run_setData_setDataSize_sample).2
        ⟨Op.setData [1, 0, -1, 0], by simp, rfl⟩).1⟩

/-- C18. In every state reached from `create( n )` by public operations in which the
running flag is set, current polar values come with current cartesian values; so the polar
to cartesian branch of `transform` is never due, and `transform` either changes nothing or
runs its forward path: the cartesian arrays it writes are the filtered, scaled forward
transform of the windowed sample buffer. -/
theorem polar_to_cartesian_never_due (E : Engine R) (n : Int) (b : Bool) (s0 : Kiss R)
    (ops : List (Op R)) (t : Kiss R) (hc : create E n b = some s0)
    (hr : run E ops s0 = some t) :
    (t.mRunning = true → t.mPolarUpdated = true → t.mCartesianUpdated = true) ∧
      polarToCartesianDue t = false ∧
      (transform E t = t ∨
        (forwardPending t = true ∧
          transform E t =
            { t with
              mReal := overwrite t.mBinSize
                (fun j _ => (if applies t j then ((forwardFFT E t).getD j ⟨0, 0⟩).r else 0)
                  * (2 / t.mWindowSum)) t.mReal
              mImag := overwrite t.mBinSize
                (fun j _ => (if applies t j then ((forwardFFT E t).getD j ⟨0, 0⟩).i else 0)
                  * (2 / t.mWindowSum)) t.mImag
              mCartesianUpdated := true
              mCartesianNormalized := true })) := by
  obtain ⟨c1, c2, c3, c4, c5, -, -⟩ := create_flags E n b s0 hc
  have hI := run_preserves E
    (fun u => u.mCartesianUpdated = u.mCartesianNormalized ∧
      u.mPolarUpdated = u.mPolarNormalized ∧ u.mDataNormalized = true)
    (fun op s u hs h => step_paired E op s u hs h) ops s0 t
    ⟨c1.trans c2.symm, c3.trans c4.symm, c5⟩ hr
  have hJ := run_preserves E
    (fun u => u.mRunning = true → u.mPolarUpdated = true → u.mCartesianUpdated = true)
    (fun op s u hs h => step_polar_cartesian E op s u hs h) ops s0 t (fun _ _ => c1) hr
  refine ⟨hJ, ?_, ?_⟩
  · cases hrun : t.mRunning
    · simp [polarToCartesianDue, hrun]
    · cases hp : t.mPolarUpdated
      · simp [polarToCartesianDue, hp]
      · simp [polarToCartesianDue, hJ hrun hp]
  · rcases Bool.eq_false_or_eq_true t.mRunning with hrun | hrun
    swap
    · exact Or.inl (transform_stopped E t hrun)
    · rcases Bool.eq_false_or_eq_true t.mCartesianUpdated with hu | hu
      swap
      · have hn : t.mCartesianNormalized = false := by rw [← hI.1, hu]
        have hp : t.mPolarUpdated = false := by
          cases hp : t.mPolarUpdated
          · rfl
          · rw [hJ hrun hp] at hu
            exact absurd hu (by decide)
        exact Or.inr ⟨by simp [forwardPending, hrun, hu, hp],
          transform_forward E t hrun hu hp hn⟩
      · exact Or.inl (transform_fresh E t hu (by rw [← hI.1, hu]))

/-- Witness of C18: `create( 4 )`, then `setData`. -/
theorem polar_to_cartesian_never_due_witness :
    (create sampleEngine 4 true = some (sampleKiss true) ∧
      run sampleEngine [Op.setData [1, 0, -1, 0]] (sampleKiss true)
        = some (setData [1, 0, -1, 0] (sampleKiss true))) ∧
    polarToCartesianDue (setData [1, 0, -1, 0] (sampleKiss true)) = false :=
  ⟨⟨create_sampleEngine true, rfl⟩,
    (polar_to_cartesian_never_due sampleEngine 4 true (sampleKiss true)
      [Op.setData [1, 0, -1, 0]] (setData [1, 0, -1, 0] (sampleKiss true))
      (create_sampleEngine true) rfl).2.1⟩

end ReachableClaims

section ResizeClaims

variable {R : Type} [LinearOrderedField R]

open Kiss

/-- C12, evaluated at the failing input.  `setDataSize( 8 )` on the four sample analyzer:
the five flags the function assigns are true afterwards, while `mDataUpdated` is false
when it was false before the call and true when it was true. -/
theorem setDataSize_keeps_dataUpdated :
    (∃ t, setDataSize sampleEngine 8 (sampleKiss false) = some t ∧
        t.mCartesianUpdated = true ∧ t.mCartesianNormalized = true ∧
        t.mPolarUpdated = true ∧ t.mPolarNormalized = true ∧ t.mDataNormalized = true ∧
        t.mDataUpdated = false) ∧
      (∃ t, setDataSize sampleEngine 8 (sampleKiss true) = some t ∧
        t.mCartesianUpdated = true ∧ t.mCartesianNormalized = true ∧
        t.mPolarUpdated = true ∧ t.mPolarNormalized = true ∧ t.mDataNormalized = true ∧
        t.mDataUpdated = true) := by
  constructor
  · obtain ⟨t, ht⟩ := setDataSize_isSome sampleEngine 8 (sampleKiss false) (by decide)
    obtain ⟨-, -, h3, h4, h5, h6, h7, h8, -⟩ :=
      setDataSize_fields sampleEngine 8 (sampleKiss false) t ht
    exact ⟨t, ht, h4, h3, h7, h6, h5, h8⟩
  · obtain ⟨t, ht⟩ := setDataSize_isSome sampleEngine 8 (sampleKiss true) (by decide)
    obtain ⟨-, -, h3, h4, h5, h6, h7, h8, -⟩ :=
      setDataSize_fields sampleEngine 8 (sampleKiss true) t ht
    exact ⟨t, ht, h4, h3, h7, h6, h5, h8⟩

/-- C13 refuted.  The four sample analyzer holding the block `1, 0, -1, 0` under the filter
`( 0, 0.5 )`: `setDataSize( 4 )`, the size already allocated, zeroes the sample buffer,
resets the filter and sets the spectral flags. -/
theorem same_size_resize_resets :
    (setData [1, 0, -1, 0] (setFilter 0 (1 / 2) (sampleKiss true))).mDataSize = 4 ∧
      setDataSize sampleEngine 4 (setData [1, 0, -1, 0] (setFilter 0 (1 / 2) (sampleKiss true)))
        = some (sampleKiss true) ∧
      (sampleKiss true).mData
        ≠ (setData [1, 0, -1, 0] (setFilter 0 (1 / 2) (sampleKiss true))).mData ∧
      (sampleKiss true).mFrequencyHigh
        ≠ (setData [1, 0, -1, 0] (setFilter 0 (1 / 2) (sampleKiss true))).mFrequencyHigh ∧
      (sampleKiss true).mCartesianUpdated
        ≠ (setData [1, 0, -1, 0] (setFilter 0 (1 / 2) (sampleKiss true))).mCartesianUpdated := by
  refine ⟨rfl, ?_, by decide, ?_, by decide⟩
  · simp [setData, setFilter, setDataSize, forLoop, windowSample, sampleEngine, sampleKiss,
      memcpy]
    norm_num
  · simp [setData, setFilter, sampleKiss]

/-- C13 as amended.  `setDataSize( n )` with `n` the block length already allocated
succeeds and skips nothing but the release of the old buffers: it keeps the block length,
the running flag and `mDataUpdated`, sets the other five flags, resets the filter to
`( 0, 1 )`, zeroes the sample buffer and the four spectral arrays, and builds the same
analyzer from any state with the same two kept flags (the window is recomputed from `n`
alone); it leaves the analyzer as it was when that analyzer came from such a resize. -/
theorem setDataSize_same_size (E : Engine R) (s : Kiss R) :
    ∃ t, setDataSize E (s.mDataSize : Int) s = some t ∧
      t.mDataSize = s.mDataSize ∧ t.mBinSize = s.mDataSize / 2 + 1 ∧
      t.mRunning = s.mRunning ∧ t.mDataUpdated = s.mDataUpdated ∧
      t.mCartesianUpdated = true ∧ t.mCartesianNormalized = true ∧
      t.mPolarUpdated = true ∧ t.mPolarNormalized = true ∧ t.mDataNormalized = true ∧
      t.mFrequencyLow = 0 ∧ t.mFrequencyHigh = 1 ∧
      t.mData = List.replicate s.mDataSize 0 ∧
      t.mReal = List.replicate (s.mDataSize / 2 + 1) 0 ∧
      t.mImag = List.replicate (s.mDataSize / 2 + 1) 0 ∧
      t.mAmplitude = List.replicate (s.mDataSize / 2 + 1) 0 ∧
      t.mPhase = List.replicate (s.mDataSize / 2 + 1) 0 ∧
      (∀ s' : Kiss R, s'.mRunning = s.mRunning → s'.mDataUpdated = s.mDataUpdated →
        setDataSize E (s.mDataSize : Int) s' = some t) ∧
      setDataSize E (s.mDataSize : Int) t = some t ∧
      (∀ s0 : Kiss R, setDataSize E (s.mDataSize : Int) s0 = some s → t = s) := by
  obtain ⟨t, ht⟩ := setDataSize_isSome E (s.mDataSize : Int) s (Int.natCast_nonneg _)
  obtain ⟨h1, h2, h3, h4, h5, h6, h7, h8, h9, h10, h11, h12, h13, h14, h15, h16⟩ :=
    setDataSize_fields E (s.mDataSize : Int) s t ht
  simp only [Int.toNat_ofNat] at h1 h2 h12 h13 h14 h15 h16
  refine ⟨t, ht, h1, h2, h9, h8, h4, h3, h7, h6, h5, h10, h11, h12, h13, h14, h15, h16,
    ?_, ?_, ?_⟩
  · intro s' hr hd
    rw [setDataSize_congr E _ s' s hr hd, ht]
  · rw [setDataSize_congr E _ t s h9 h8, ht]
  · intro s0 hs0
    obtain ⟨-, -, -, -, -, -, -, k8, k9, -⟩ := setDataSize_fields E _ s0 s hs0
    have h := setDataSize_congr E (s.mDataSize : Int) s s0 k9 k8
    rw [ht, hs0] at h
    exact Option.some.inj h

/-- Witness of C13 as amended: on the analyzer `create( 4 )` has just built,
`setDataSize( 4 )` changes nothing. -/
theorem setDataSize_same_size_witness :
    setDataSize sampleEngine ((sampleKiss true).mDataSize : Int) (unbuilt 4 true)
        = some (sampleKiss true) ∧
      setDataSize sampleEngine ((sampleKiss true).mDataSize : Int) (sampleKiss true)
        = some (sampleKiss true) := by
  have hc : setDataSize sampleEngine ((sampleKiss true).mDataSize : Int) (unbuilt 4 true)
      = some (sampleKiss true) := create_sampleEngine true
  obtain ⟨t, ht, hrest⟩ := setDataSize_same_size sampleEngine (sampleKiss true)
  have h := hrest.2.2.2.2.2.2.2.2.2.2.2.2.2.2.2.2.2.2 (unbuilt 4 true) hc
  rw [h] at ht
  exact ⟨hc, ht⟩

end ResizeClaims

section FilterBounds

variable {R : Type} [LinearOrderedField R] [FloorRing R]

open Kiss

/-- A property that a public operation preserves whenever the operation meets a condition
holds after a sequence of public operations that all meet the condition. -/
theorem run_preserves_of (E : Engine R) (P : Kiss R → Prop) (Q : Op R → Prop)
    (hstep : ∀ (op : Op R) (s t : Kiss R), Q op → P s → op.step E s = some t → P t) :
    ∀ (ops : List (Op R)) (s t : Kiss R), (∀ op ∈ ops, Q op) → P s →
      run E ops s = some t → P t := by
  intro ops
  induction ops with
  | nil =>
    intro s t _ hs h
    simp only [run, Option.some.injEq] at h
    rw [← h]
    exact hs
  | cons op ops ih =>
    intro s t hq hs h
    simp only [run] at h
    cases h1 : op.step E s with
    | none => simp [h1] at h
    | some u =>
      rw [h1] at h
      exact ih u t (fun o ho => hq o (List.mem_cons_of_mem _ ho))
        (hstep op s u (hq op (List.mem_cons_self _ _)) hs h1) h

theorem call_frequencies (E : Engine R) (g : Getter) (s : Kiss R) :
    (g.call E s).1.mFrequencyLow = s.mFrequencyLow ∧
      (g.call E s).1.mFrequencyHigh = s.mFrequencyHigh := by
  cases g <;>
    simp [Getter.call, getAmplitude, getPhase, getReal, getImaginary,
      cartesianToPolar_mFrequencyLow, cartesianToPolar_mFrequencyHigh,
      transform_mFrequencyLow, transform_mFrequencyHigh, getData_mFrequencyLow,
      getData_mFrequencyHigh]

/-- A public operation whose frequencies lie between 0 and 1 keeps the filter bounds in
the unit square. -/
theorem step_filterInUnitSquare (E : Engine R) (op : Op R) (s t : Kiss R)
    (hq : op.frequenciesInUnit) (hs : filterInUnitSquare s) (h : op.step E s = some t) :
    filterInUnitSquare t := by
  cases op with
  | setDataSize n =>
    obtain ⟨-, -, -, -, -, -, -, -, -, h10, h11, -⟩ := setDataSize_fields E n s t h
    simp [filterInUnitSquare, h10, h11]
  | get g =>
    simp only [Op.step, Option.some.injEq] at h
    rw [← h]
    simpa [filterInUnitSquare, call_frequencies] using hs
  | setFilter lo hi =>
    simp only [Op.step, Option.some.injEq] at h
    rw [← h]
    exact hq
  | setFilterPreset f k =>
    simp only [Op.step, Option.some.injEq] at h
    rw [← h]
    obtain ⟨hf0, hf1⟩ := hq
    unfold setFilterPreset
    split_ifs
    · exact ⟨hf0, hf1, zero_le_one, le_refl _⟩
    · exact ⟨le_refl _, zero_le_one, hf0, hf1⟩
    · exact ⟨le_refl _, zero_le_one, zero_le_one, le_refl _⟩
    · exact ⟨hf0, hf1, hf0, hf1⟩
    · exact hs
  | removeFilter =>
    simp only [Op.step, Option.some.injEq] at h
    rw [← h]
    simp [filterInUnitSquare, removeFilter, setFilterPreset, setFilter, Filter.NONE,
      Filter.LOW_PASS, Filter.HIGH_PASS]
  | _ =>
    simp only [Op.step, Option.some.injEq] at h
    rw [← h]
    exact hs

/-- C14 refuted.  From `create( 4 )`, `setFilter( 2, -1 )` leaves the bounds `( 2, -1 )`
and `setFilter( 5, LOW_PASS )` leaves the bounds `( 0, 5 )`: outside the unit square. -/
theorem filter_leaves_unit_square :
    create sampleEngine 4 true = some (sampleKiss true) ∧
      run sampleEngine [Op.setFilter 2 (-1)] (sampleKiss true)
        = some (setFilter 2 (-1) (sampleKiss true)) ∧
      (setFilter 2 (-1) (sampleKiss true)).mFrequencyLow = 2 ∧
      (setFilter 2 (-1) (sampleKiss true)).mFrequencyHigh = -1 ∧
      ¬ filterInUnitSquare (setFilter 2 (-1) (sampleKiss true)) ∧
      run sampleEngine [Op.setFilterPreset 5 Filter.LOW_PASS] (sampleKiss true)
        = some (setFilterPreset 5 Filter.LOW_PASS (sampleKiss true)) ∧
      (setFilterPreset 5 Filter.LOW_PASS (sampleKiss true)).mFrequencyHigh = 5 ∧
      ¬ filterInUnitSquare (setFilterPreset 5 Filter.LOW_PASS (sampleKiss true)) := by
  refine ⟨create_sampleEngine true, rfl, rfl, rfl, ?_, rfl, rfl, ?_⟩
  · simp [filterInUnitSquare, setFilter, sampleKiss]
  · simp [filterInUnitSquare, setFilterPreset, setFilter, sampleKiss, Filter.LOW_PASS,
      Filter.HIGH_PASS]

/-- C14 as amended.  In every state reached from `create( n )` by public operations in
which every frequency passed to either form of `setFilter` lies between 0 and 1, the
filter bounds satisfy `0 ≤ lowFreq ≤ 1` and `0 ≤ highFreq ≤ 1`. -/
theorem filter_in_unit_square (E : Engine R) (n : Int) (b : Bool) (s0 : Kiss R)
    (ops : List (Op R)) (t : Kiss R) (hc : create E n b = some s0)
    (hr : run E ops s0 = some t) (hq : ∀ op ∈ ops, op.frequenciesInUnit) :
    0 ≤ t.mFrequencyLow ∧ t.mFrequencyLow ≤ 1 ∧ 0 ≤ t.mFrequencyHigh ∧
      t.mFrequencyHigh ≤ 1 := by
  rw [create_eq] at hc
  obtain ⟨-, -, -, -, -, -, -, -, -, h10, h11, -⟩ := setDataSize_fields E n _ s0 hc
  have h0 : filterInUnitSquare s0 := by
    simp [filterInUnitSquare, h10, h11]
  exact run_preserves_of E filterInUnitSquare Op.frequenciesInUnit
    (fun op s u hq hs h => step_filterInUnitSquare E op s u hq hs h) ops s0 t hq h0 hr

/-- Witness of C14 as amended: `create( 4 )`, then `setFilter( 0.25, 0.5 )`. -/
theorem filter_in_unit_square_witness :
    (create sampleEngine 4 true = some (sampleKiss true) ∧
      run sampleEngine [Op.setFilter (1 / 4) (1 / 2)] (sampleKiss true)
        = some (setFilter (1 / 4) (1 / 2) (sampleKiss true)) ∧
      (∀ op ∈ [Op.setFilter (1 / 4 : ℚ) (1 / 2)], op.frequenciesInUnit)) ∧
    (0 ≤ (setFilter (1 / 4) (1 / 2) (sampleKiss true)).mFrequencyLow ∧
      (setFilter (1 / 4) (1 / 2) (sampleKiss true)).mFrequencyLow ≤ 1 ∧
      0 ≤ (setFilter (1 / 4) (1 / 2) (sampleKiss true)).mFrequencyHigh ∧
      (setFilter (1 / 4) (1 / 2) (sampleKiss true)).mFrequencyHigh ≤ 1) :=
  ⟨⟨create_sampleEngine true, rfl, by
      intro op hop
      rw [List.mem_singleton] at hop
      subst hop
      simp only [Op.frequenciesInUnit]
      norm_num⟩,
    filter_in_unit_square sampleEngine 4 true (sampleKiss true)
      [Op.setFilter (1 / 4) (1 / 2)] (setFilter (1 / 4) (1 / 2) (sampleKiss true))
      (create_sampleEngine true) rfl (by
        intro op hop
        rw [List.mem_singleton] at hop
        subst hop
        simp only [Op.frequenciesInUnit]
        norm_num)⟩

end FilterBounds

/-! ## The window -/

section Window

variable {R : Type} [LinearOrderedField R]

open Kiss

/-- Reading the cell that has just been written. -/
theorem getD_set_self {α : Type} (d v : α) (l : List α) (k : Nat) (hk : k < l.length) :
    (l.set k v).getD k d = v := by
  simp [List.getD_eq_getElem?_getD, List.getElem?_set_self hk]

/-- The window loop in closed form, as long as it stays inside the two arrays. -/
theorem forLoop_windowSample (E : Engine R) (s : Kiss R) (k : Nat)
    (hw : k ≤ s.mWindow.length) :
    forLoop (windowSample E) k s =
      { s with
        mWindow := overwrite k
          (fun j _ => E.sin ((E.pi * (j : R)) / (((s.mDataSize : Int) - 1 : Int) : R)))
          s.mWindow
        mWindowSum := s.mWindowSum + Finset.sum (Finset.range k)
          (fun j => E.sin ((E.pi * (j : R)) / (((s.mDataSize : Int) - 1 : Int) : R)))
        mInverseWindow := overwrite k
          (fun j _ => 1 / E.sin ((E.pi * (j : R)) / (((s.mDataSize : Int) - 1 : Int) : R)))
          s.mInverseWindow } := by
  induction k with
  | zero => simp [forLoop, overwrite_zero]
  | succ k ih =>
    have hk : k < (overwrite k
        (fun j _ => E.sin ((E.pi * (j : R)) / (((s.mDataSize : Int) - 1 : Int) : R)))
        s.mWindow).length := by
      rw [length_overwrite]
      omega
    simp only [forLoop, ih (by omega), windowSample]
    rw [getD_set_self 0 _ _ k hk,
      overwrite_succ_const
        (fun j => E.sin ((E.pi * (j : R)) / (((s.mDataSize : Int) - 1 : Int) : R))) k s.mWindow,
      overwrite_succ_const
        (fun j => 1 / E.sin ((E.pi * (j : R)) / (((s.mDataSize : Int) - 1 : Int) : R))) k
        s.mInverseWindow,
      Finset.sum_range_succ, add_assoc]

/-- The window, the inverse window and the window sum after a resize. -/
theorem setDataSize_window (E : Engine R) (dataSize : Int) (s t : Kiss R)
    (h : setDataSize E dataSize s = some t) :
    t.mWindow.length = dataSize.toNat ∧ t.mInverseWindow.length = dataSize.toNat ∧
      t.mWindowSum = Finset.sum (Finset.range dataSize.toNat)
        (fun j => E.sin ((E.pi * (j : R)) / (((dataSize.toNat : Int) - 1 : Int) : R))) ∧
      (∀ i, i < dataSize.toNat →
        t.mWindow.getD i 0
          = E.sin ((E.pi * (i : R)) / (((dataSize.toNat : Int) - 1 : Int) : R)) ∧
        t.mInverseWindow.getD i 0
          = 1 / E.sin ((E.pi * (i : R)) / (((dataSize.toNat : Int) - 1 : Int) : R))) := by
  unfold setDataSize at h
  split_ifs at h
  simp only [Option.some.injEq] at h
  subst h
  rw [forLoop_windowSample E _ _ (by simp)]
  refine ⟨by simp [length_overwrite], by simp [length_overwrite], by simp, ?_⟩
  intro i hi
  constructor
  · simp only
    rw [getD_overwrite 0 _ _ _ _ (by simpa using hi)]
    simp [hi]
  · simp only
    rw [getD_overwrite 0 _ _ _ _ (by simpa using hi)]
    simp [hi]

/-- The buffers of a resized analyzer have the lengths of its two sizes. -/
theorem setDataSize_allocated (E : Engine R) (dataSize : Int) (s t : Kiss R)
    (h : setDataSize E dataSize s = some t) : Allocated t := by
  obtain ⟨h1, h2, -, -, -, -, -, -, -, -, -, h12, h13, h14, h15, h16⟩ :=
    setDataSize_fields E dataSize s t h
  obtain ⟨w1, w2, -⟩ := setDataSize_window E dataSize s t h
  simp [Allocated, h1, h2, h12, h13, h14, h15, h16, w1, w2]

end Window

section HalfSine

open Kiss

/-- The half sine `sin( pi i / ( N - 1 ) )` for `i < N`, `N ≥ 3`: nonnegative, zero exactly
at `i = 0` and `i = N - 1`, positive in between. -/
theorem halfSine_facts (N : ℕ) (hN : 3 ≤ N) (i : ℕ) (hi : i < N) :
    0 ≤ Real.sin (Real.pi * (i : ℝ) / ((N : ℝ) - 1)) ∧
      (Real.sin (Real.pi * (i : ℝ) / ((N : ℝ) - 1)) = 0 ↔ i = 0 ∨ i = N - 1) ∧
      (0 < i → i < N - 1 → 0 < Real.sin (Real.pi * (i : ℝ) / ((N : ℝ) - 1))) := by
  have hN1 : (0 : ℝ) < (N : ℝ) - 1 := by
    have : (3 : ℝ) ≤ (N : ℝ) := by exact_mod_cast hN
    linarith
  have hpos : 0 < i → i < N - 1 → 0 < Real.sin (Real.pi * (i : ℝ) / ((N : ℝ) - 1)) := by
    intro h0 h1
    have hi0 : (0 : ℝ) < (i : ℝ) := by exact_mod_cast h0
    have hi1 : (i : ℝ) < (N : ℝ) - 1 := by
      have : (i : ℝ) + 1 < (N : ℝ) := by exact_mod_cast (by omega : i + 1 < N)
      linarith
    apply Real.sin_pos_of_pos_of_lt_pi
    · exact div_pos (mul_pos Real.pi_pos hi0) hN1
    · rw [div_lt_iff₀ hN1]
      exact mul_lt_mul_of_pos_left hi1 Real.pi_pos
  have hzero : Real.sin (Real.pi * ((0 : ℕ) : ℝ) / ((N : ℝ) - 1)) = 0 := by simp
  have hlast : Real.sin (Real.pi * ((N - 1 : ℕ) : ℝ) / ((N : ℝ) - 1)) = 0 := by
    have hc : ((N - 1 : ℕ) : ℝ) = (N : ℝ) - 1 := by
      rw [Nat.cast_sub (by omega : 1 ≤ N)]
      simp
    rw [hc, mul_div_assoc, div_self (ne_of_gt hN1), mul_one, Real.sin_pi]
  rcases Nat.eq_zero_or_pos i with h0 | h0
  · subst h0
    exact ⟨by rw [hzero], ⟨fun _ => Or.inl rfl, fun _ => hzero⟩, hpos⟩
  · rcases Nat.lt_or_ge i (N - 1) with h1 | h1
    · have hp := hpos h0 h1
      refine ⟨le_of_lt hp, ⟨fun h => absurd h (ne_of_gt hp), ?_⟩, hpos⟩
      intro h
      omega
    · have hiN : i = N - 1 := by omega
      subst hiN
      exact ⟨by rw [hlast], ⟨fun _ => Or.inr rfl, fun _ => hlast⟩, hpos⟩

/-- The sum of the half sine over a block of at least three samples is positive. -/
theorem halfSine_sum_pos (N : ℕ) (hN : 3 ≤ N) :
    0 < Finset.sum (Finset.range N) (fun j => Real.sin (Real.pi * (j : ℝ) / ((N : ℝ) - 1))) := by
  apply Finset.sum_pos'
  · intro j hj
    exact (halfSine_facts N hN j (Finset.mem_range.mp hj)).1
  · exact ⟨1, Finset.mem_range.mpr (by omega),
      (halfSine_facts N hN 1 (by omega)).2.2 (by omega) (by omega)⟩

theorem wrapInt32_of_lt (z : Int) (h0 : 0 ≤ z) (h1 : z < 2147483648) : wrapInt32 z = z := by
  unfold wrapInt32
  omega

theorem wrapInt32_two_mul_ne_zero (N : ℕ) (h0 : 0 < N) (h1 : N < 2147483648) :
    wrapInt32 (2 * (N : Int)) ≠ 0 := by
  unfold wrapInt32
  omega

end HalfSine

section WindowClaim

open Kiss

/-- The window of a resized analyzer under an exact engine, with real casts. -/
theorem setDataSize_window_exact (E : Engine ℝ) (hE : Exact E) (N : ℕ) (s t : Kiss ℝ)
    (h : setDataSize E (N : Int) s = some t) :
    t.mWindowSum = Finset.sum (Finset.range N)
        (fun j => Real.sin (Real.pi * (j : ℝ) / ((N : ℝ) - 1))) ∧
      (∀ i, i < N →
        t.mWindow.getD i 0 = Real.sin (Real.pi * (i : ℝ) / ((N : ℝ) - 1)) ∧
        t.mInverseWindow.getD i 0 = 1 / Real.sin (Real.pi * (i : ℝ) / ((N : ℝ) - 1))) := by
  obtain ⟨hpi, hsin, -⟩ := hE
  obtain ⟨-, -, h3, h4⟩ := setDataSize_window E (N : Int) s t h
  simp only [Int.toNat_ofNat, hpi, hsin, Int.cast_sub, Int.cast_natCast, Int.cast_one]
    at h3 h4
  exact ⟨h3, h4⟩

/-- C16. In exact arithmetic, for every block length `N ≥ 3` (an `int32_t`), `setDataSize`
succeeds and computes for every index `i < N` the window coefficient
`sin( pi i / ( N - 1 ) )`; the coefficient is zero exactly at `i = 0` and `i = N - 1` and
positive at every index in between; `windowSum` is the sum of the coefficients and is
positive, so that the divisors of `2 / windowSum` and of `windowSum / ( 2 N )` are not
zero; and the inverse window coefficient is `1 / window[ i ]`, a division by zero exactly
at the two endpoints. -/
theorem window_half_sine (E : Engine ℝ) (hE : Exact E) (N : ℕ) (hN : 3 ≤ N)
    (hN32 : N < 2147483648) (s : Kiss ℝ) :
    ∃ t, setDataSize E (N : Int) s = some t ∧
      (∀ i, i < N →
        t.mWindow.getD i 0 = Real.sin (Real.pi * (i : ℝ) / ((N : ℝ) - 1)) ∧
        (t.mWindow.getD i 0 = 0 ↔ i = 0 ∨ i = N - 1) ∧
        (0 < i → i < N - 1 → 0 < t.mWindow.getD i 0) ∧
        t.mInverseWindow.getD i 0 = 1 / t.mWindow.getD i 0) ∧
      t.mWindowSum = Finset.sum (Finset.range N) (fun i => t.mWindow.getD i 0) ∧
      0 < t.mWindowSum ∧ 0 < 2 / t.mWindowSum ∧
      (((wrapInt32 (2 * (t.mDataSize : Int)) : Int) : ℝ) ≠ 0) ∧
      (N < 1073741824 →
        t.mWindowSum / ((wrapInt32 (2 * (t.mDataSize : Int)) : Int) : ℝ)
          = t.mWindowSum / (2 * (N : ℝ)) ∧
        0 < t.mWindowSum / (2 * (N : ℝ))) := by
  obtain ⟨t, ht⟩ := setDataSize_isSome E (N : Int) s (Int.natCast_nonneg _)
  obtain ⟨hsum, hw⟩ := setDataSize_window_exact E hE N s t ht
  obtain ⟨hsize, -⟩ := setDataSize_fields E (N : Int) s t ht
  simp only [Int.toNat_ofNat] at hsize
  have hpos : 0 < t.mWindowSum := by
    rw [hsum]
    exact halfSine_sum_pos N hN
  refine ⟨t, ht, ?_, ?_, hpos, div_pos two_pos hpos, ?_, ?_⟩
  · intro i hi
    obtain ⟨h1, h2⟩ := hw i hi
    obtain ⟨-, f2, f3⟩ := halfSine_facts N hN i hi
    rw [h1, h2]
    exact ⟨rfl, f2, f3, rfl⟩
  · rw [hsum]
    apply Finset.sum_congr rfl
    intro i hi
    rw [(hw i (Finset.mem_range.mp hi)).1]
  · rw [hsize]
    exact_mod_cast wrapInt32_two_mul_ne_zero N (by omega) hN32
  · intro h30
    have hNpos : (0 : ℝ) < 2 * (N : ℝ) := by
      have : (3 : ℝ) ≤ (N : ℝ) := by exact_mod_cast hN
      linarith
    rw [hsize, wrapInt32_of_lt (2 * (N : Int)) (by omega) (by omega)]
    push_cast
    exact ⟨rfl, div_pos hpos hNpos⟩

/-- Witness of C16: the exact engine, block length 3, on the object under construction. -/
theorem window_half_sine_witness :
    (Exact ⟨Real.pi, Real.sin, Real.cos, Real.sqrt, fun _ _ => 0,
        realDFT Real.cos Real.sin Real.pi, fun _ _ => []⟩ ∧
      3 ≤ 3 ∧ 3 < 2147483648) ∧
    ∃ t, setDataSize
        (⟨Real.pi, Real.sin, Real.cos, Real.sqrt, fun _ _ => 0,
          realDFT Real.cos Real.sin Real.pi, fun _ _ => []⟩ : Engine ℝ)
        ((3 : ℕ) : Int) (unbuilt 3 true) = some t ∧ 0 < t.mWindowSum :=
  ⟨⟨⟨rfl, rfl, rfl, rfl, rfl⟩, by decide, by decide⟩, by
    obtain ⟨t, ht, -, -, hpos, -⟩ := window_half_sine
      (⟨Real.pi, Real.sin, Real.cos, Real.sqrt, fun _ _ => 0,
        realDFT Real.cos Real.sin Real.pi, fun _ _ => []⟩ : Engine ℝ)
      ⟨rfl, rfl, rfl, rfl, rfl⟩ 3 (by decide) (by decide) (unbuilt 3 true)
    exact ⟨t, ht, hpos⟩⟩

end WindowClaim

section Scenario

open Kiss

/-- Cosine and sine of a whole number of quarter turns. -/
theorem quarter_turns (j : ℕ) :
    Real.cos ((j : ℝ) * (Real.pi / 2))
        = (if j % 4 = 0 then 1 else if j % 4 = 2 then -1 else 0) ∧
      Real.sin ((j : ℝ) * (Real.pi / 2))
        = (if j % 4 = 1 then 1 else if j % 4 = 3 then -1 else 0) := by
  induction j using Nat.strong_induction_on with
  | _ j ih =>
    rcases Nat.lt_or_ge j 4 with h | h
    · interval_cases j
      · simp
      · simp
      · have e : ((2 : ℕ) : ℝ) * (Real.pi / 2) = Real.pi := by push_cast; ring
        rw [e]
        simp
      · have e : ((3 : ℕ) : ℝ) * (Real.pi / 2) = Real.pi / 2 + Real.pi := by push_cast; ring
        rw [e, Real.cos_add_pi, Real.sin_add_pi]
        simp
    · obtain ⟨h1, h2⟩ := ih (j - 4) (by omega)
      have e : (j : ℝ) * (Real.pi / 2) = ((j - 4 : ℕ) : ℝ) * (Real.pi / 2) + 2 * Real.pi := by
        rw [Nat.cast_sub h]
        push_cast
        ring
      have hm : j % 4 = (j - 4) % 4 := by omega
      rw [e, Real.cos_add_two_pi, Real.sin_add_two_pi, h1, h2, hm]
      exact ⟨rfl, rfl⟩

theorem cos_quarter_turns (j : ℕ) :
    Real.cos ((j : ℝ) * (Real.pi / 2))
      = (if j % 4 = 0 then 1 else if j % 4 = 2 then -1 else 0) :=
  (quarter_turns j).1

theorem sin_quarter_turns (j : ℕ) :
    Real.sin ((j : ℝ) * (Real.pi / 2))
      = (if j % 4 = 1 then 1 else if j % 4 = 3 then -1 else 0) :=
  (quarter_turns j).2

/-- The real DFT of eight samples that vanish at the odd indices and at index 0. -/
theorem realDFT_eight (a b d : ℝ) :
    realDFT Real.cos Real.sin Real.pi 8 [0, 0, -a, 0, b, 0, -d, 0] =
      [⟨-a + b - d, 0⟩, ⟨-b, a - d⟩, ⟨a + b + d, 0⟩, ⟨-b, d - a⟩, ⟨-a + b - d, 0⟩] := by
  have hc12 : Real.cos (2 * Real.pi * 2 / 8) = 0 := by
    rw [show (2 * Real.pi * 2 / 8 : ℝ) = ((1 : ℕ) : ℝ) * (Real.pi / 2) by push_cast; ring, cos_quarter_turns]
    simp
  have hs12 : Real.sin (2 * Real.pi * 2 / 8) = 1 := by
    rw [show (2 * Real.pi * 2 / 8 : ℝ) = ((1 : ℕ) : ℝ) * (Real.pi / 2) by push_cast; ring, sin_quarter_turns]
    simp
  have hc14 : Real.cos (2 * Real.pi * 4 / 8) = -1 := by
    rw [show (2 * Real.pi * 4 / 8 : ℝ) = ((2 : ℕ) : ℝ) * (Real.pi / 2) by push_cast; ring, cos_quarter_turns]
    simp
  have hs14 : Real.sin (2 * Real.pi * 4 / 8) = 0 := by
    rw [show (2 * Real.pi * 4 / 8 : ℝ) = ((2 : ℕ) : ℝ) * (Real.pi / 2) by push_cast; ring, sin_quarter_turns]
    simp
  have hc16 : Real.cos (2 * Real.pi * 6 / 8) = 0 := by
    rw [show (2 * Real.pi * 6 / 8 : ℝ) = ((3 : ℕ) : ℝ) * (Real.pi / 2) by push_cast; ring, cos_quarter_turns]
    simp
  have hs16 : Real.sin (2 * Real.pi * 6 / 8) = -1 := by
    rw [show (2 * Real.pi * 6 / 8 : ℝ) = ((3 : ℕ) : ℝ) * (Real.pi / 2) by push_cast; ring, sin_quarter_turns]
    simp
  have hc22 : Real.cos (2 * Real.pi * (2 * 2) / 8) = -1 := by
    rw [show (2 * Real.pi * (2 * 2) / 8 : ℝ) = ((2 : ℕ) : ℝ) * (Real.pi / 2) by push_cast; ring, cos_quarter_turns]
    simp
  have hs22 : Real.sin (2 * Real.pi * (2 * 2) / 8) = 0 := by
    rw [show (2 * Real.pi * (2 * 2) / 8 : ℝ) = ((2 : ℕ) : ℝ) * (Real.pi / 2) by push_cast; ring, sin_quarter_turns]
    simp
  have hc24 : Real.cos (2 * Real.pi * (2 * 4) / 8) = 1 := by
    rw [show (2 * Real.pi * (2 * 4) / 8 : ℝ) = ((4 : ℕ) : ℝ) * (Real.pi / 2) by push_cast; ring, cos_quarter_turns]
    simp
  have hs24 : Real.sin (2 * Real.pi * (2 * 4) / 8) = 0 := by
    rw [show (2 * Real.pi * (2 * 4) / 8 : ℝ) = ((4 : ℕ) : ℝ) * (Real.pi / 2) by push_cast; ring, sin_quarter_turns]
    simp
  have hc26 : Real.cos (2 * Real.pi * (2 * 6) / 8) = -1 := by
    rw [show (2 * Real.pi * (2 * 6) / 8 : ℝ) = ((6 : ℕ) : ℝ) * (Real.pi / 2) by push_cast; ring, cos_quarter_turns]
    simp
  have hs26 : Real.sin (2 * Real.pi * (2 * 6) / 8) = 0 := by
    rw [show (2 * Real.pi * (2 * 6) / 8 : ℝ) = ((6 : ℕ) : ℝ) * (Real.pi / 2) by push_cast; ring, sin_quarter_turns]
    simp
  have hc32 : Real.cos (2 * Real.pi * (3 * 2) / 8) = 0 := by
    rw [show (2 * Real.pi * (3 * 2) / 8 : ℝ) = ((3 : ℕ) : ℝ) * (Real.pi / 2) by push_cast; ring, cos_quarter_turns]
    simp
  have hs32 : Real.sin (2 * Real.pi * (3 * 2) / 8) = -1 := by
    rw [show (2 * Real.pi * (3 * 2) / 8 : ℝ) = ((3 : ℕ) : ℝ) * (Real.pi / 2) by push_cast; ring, sin_quarter_turns]
    simp
  have hc34 : Real.cos (2 * Real.pi * (3 * 4) / 8) = -1 := by
    rw [show (2 * Real.pi * (3 * 4) / 8 : ℝ) = ((6 : ℕ) : ℝ) * (Real.pi / 2) by push_cast; ring, cos_quarter_turns]
    simp
  have hs34 : Real.sin (2 * Real.pi * (3 * 4) / 8) = 0 := by
    rw [show (2 * Real.pi * (3 * 4) / 8 : ℝ) = ((6 : ℕ) : ℝ) * (Real.pi / 2) by push_cast; ring, sin_quarter_turns]
    simp
  have hc36 : Real.cos (2 * Real.pi * (3 * 6) / 8) = 0 := by
    rw [show (2 * Real.pi * (3 * 6) / 8 : ℝ) = ((9 : ℕ) : ℝ) * (Real.pi / 2) by push_cast; ring, cos_quarter_turns]
    simp
  have hs36 : Real.sin (2 * Real.pi * (3 * 6) / 8) = 1 := by
    rw [show (2 * Real.pi * (3 * 6) / 8 : ℝ) = ((9 : ℕ) : ℝ) * (Real.pi / 2) by push_cast; ring, sin_quarter_turns]
    simp
  have hc42 : Real.cos (2 * Real.pi * (4 * 2) / 8) = 1 := by
    rw [show (2 * Real.pi * (4 * 2) / 8 : ℝ) = ((4 : ℕ) : ℝ) * (Real.pi / 2) by push_cast; ring, cos_quarter_turns]
    simp
  have hs42 : Real.sin (2 * Real.pi * (4 * 2) / 8) = 0 := by
    rw [show (2 * Real.pi * (4 * 2) / 8 : ℝ) = ((4 : ℕ) : ℝ) * (Real.pi / 2) by push_cast; ring, sin_quarter_turns]
    simp
  have hc44 : Real.cos (2 * Real.pi * (4 * 4) / 8) = 1 := by
    rw [show (2 * Real.pi * (4 * 4) / 8 : ℝ) = ((8 : ℕ) : ℝ) * (Real.pi / 2) by push_cast; ring, cos_quarter_turns]
    simp
  have hs44 : Real.sin (2 * Real.pi * (4 * 4) / 8) = 0 := by
    rw [show (2 * Real.pi * (4 * 4) / 8 : ℝ) = ((8 : ℕ) : ℝ) * (Real.pi / 2) by push_cast; ring, sin_quarter_turns]
    simp
  have hc46 : Real.cos (2 * Real.pi * (4 * 6) / 8) = 1 := by
    rw [show (2 * Real.pi * (4 * 6) / 8 : ℝ) = ((12 : ℕ) : ℝ) * (Real.pi / 2) by push_cast; ring, cos_quarter_turns]
    simp
  have hs46 : Real.sin (2 * Real.pi * (4 * 6) / 8) = 0 := by
    rw [show (2 * Real.pi * (4 * 6) / 8 : ℝ) = ((12 : ℕ) : ℝ) * (Real.pi / 2) by push_cast; ring, sin_quarter_turns]
    simp
  simp only [realDFT, List.range, List.range.loop, List.map, List.sum_cons, List.sum_nil,
    List.getD_cons_zero, List.getD_cons_succ, Nat.cast_ofNat, Nat.cast_mul, Nat.cast_zero,
    Nat.cast_one, List.cons.injEq, kiss_fft_cpx.mk.injEq, and_true]
  simp [hc12, hs12, hc14, hs14, hc16, hs16, hc22, hs22, hc24, hs24, hc26, hs26, hc32, hs32, hc34, hs34, hc36, hs36, hc42, hs42, hc44, hs44, hc46, hs46]
  refine ⟨by ring, ?_, ?_, ?_, ?_⟩ <;> ring_nf

end Scenario

section ScenarioAmplitude

open Kiss

/-- Bin `i` of what `getAmplitude` returns right after `setFilter` and `setData` on a
running analyzer: the square root of the squares of the filtered, scaled engine values. -/
theorem amplitude_after_block {R : Type} [LinearOrderedField R] [FloorRing R]
    (E : Engine R) (s : Kiss R) (low high : R) (x : List R) (i : Nat) (hr : s.mRunning = true) (hal : Allocated s)
    (hx : s.mDataSize ≤ x.length) (hi : i < s.mBinSize) :
    (getAmplitude E (setData x (setFilter low high s))).2.getD i 0 =
      E.sqrt
        (((if float32 (low * (s.mBinSize : R)) ≤ (i : R) ∧
              (i : R) ≤ float32 (high * (s.mBinSize : R)) then
            ((E.kiss_fftr s.mDataSize ((List.range s.mDataSize).map
              (fun k => x.getD k 0 * s.mWindow.getD k 0))).getD i ⟨0, 0⟩).r else 0)
            * (2 / s.mWindowSum)) ^ 2
          + ((if float32 (low * (s.mBinSize : R)) ≤ (i : R) ∧
              (i : R) ≤ float32 (high * (s.mBinSize : R)) then
            ((E.kiss_fftr s.mDataSize ((List.range s.mDataSize).map
              (fun k => x.getD k 0 * s.mWindow.getD k 0))).getD i ⟨0, 0⟩).i else 0)
            * (2 / s.mWindowSum)) ^ 2) := by
  have hr0 : (setData x (setFilter low high s)).mRunning = true := by
    simpa [setData, setFilter] using hr
  have hp0 : (setData x (setFilter low high s)).mPolarUpdated = false := by simp [setData]
  obtain ⟨ha, -⟩ := cartesianToPolar_stale E (setData x (setFilter low high s)) hr0 hp0
  obtain ⟨h1, h2⟩ := spectrum_after_block E s low high x [] i hr hal hx hi
  simp only [callAll, getReal, getImaginary] at h1 h2
  obtain ⟨hlen, -⟩ := hal
  simp only [getAmplitude, ha]
  rw [getD_overwrite 0 _ _ _ _ (by simpa [setData, setFilter, hlen] using hi)]
  have hi0 : i < (setData x (setFilter low high s)).mBinSize := by
    simpa [setData, setFilter] using hi
  rw [if_pos hi0, h1, h2]

end ScenarioAmplitude

section ScenarioValues

open Kiss

/-- The analyzer `create( 8 )` builds under an exact engine. -/
theorem create_eight (E : Engine ℝ) (hE : Exact E) (b0 : Bool) (s0 : Kiss ℝ)
    (hc : create E 8 b0 = some s0) :
    s0.mRunning = true ∧ Allocated s0 ∧ s0.mDataSize = 8 ∧ s0.mBinSize = 5 ∧
      s0.mWindowSum = Finset.sum (Finset.range 8)
        (fun j => Real.sin (Real.pi * (j : ℝ) / 7)) ∧
      (∀ i, i < 8 → s0.mWindow.getD i 0 = Real.sin (Real.pi * (i : ℝ) / 7)) := by
  have hc8 : setDataSize E ((8 : ℕ) : Int) (unbuilt 8 b0) = some s0 := hc
  obtain ⟨h1, h2, -⟩ := setDataSize_fields E _ _ s0 hc8
  obtain ⟨hsum, hw⟩ := setDataSize_window_exact E hE 8 _ s0 hc8
  have h7 : ((8 : ℕ) : ℝ) - 1 = 7 := by norm_num
  simp only [h7] at hsum hw
  refine ⟨(create_flags E 8 b0 s0 hc).2.2.2.2.2.2, setDataSize_allocated E _ _ s0 hc8,
    by simpa using h1, by simpa using h2, hsum, fun i hi => (hw i hi).1⟩

/-- The windowed block of the scenario and its transform. -/
theorem scenario_spectrum (E : Engine ℝ) (hE : Exact E) (b0 : Bool) (s0 : Kiss ℝ)
    (hc : create E 8 b0 = some s0) :
    E.kiss_fftr s0.mDataSize
        ((List.range s0.mDataSize).map (fun k => sineBlock.getD k 0 * s0.mWindow.getD k 0))
      = [⟨-Real.sin (Real.pi * 2 / 7) + Real.sin (Real.pi * 4 / 7)
            - Real.sin (Real.pi * 6 / 7), 0⟩,
          ⟨-Real.sin (Real.pi * 4 / 7),
            Real.sin (Real.pi * 2 / 7) - Real.sin (Real.pi * 6 / 7)⟩,
          ⟨Real.sin (Real.pi * 2 / 7) + Real.sin (Real.pi * 4 / 7)
            + Real.sin (Real.pi * 6 / 7), 0⟩,
          ⟨-Real.sin (Real.pi * 4 / 7),
            Real.sin (Real.pi * 6 / 7) - Real.sin (Real.pi * 2 / 7)⟩,
          ⟨-Real.sin (Real.pi * 2 / 7) + Real.sin (Real.pi * 4 / 7)
            - Real.sin (Real.pi * 6 / 7), 0⟩] := by
  obtain ⟨-, -, hd, -, -, hw⟩ := create_eight E hE b0 s0 hc
  have hl : (List.range s0.mDataSize).map
      (fun k => (sineBlock : List ℝ).getD k 0 * s0.mWindow.getD k 0)
      = [0, 0, -Real.sin (Real.pi * 2 / 7), 0, Real.sin (Real.pi * 4 / 7), 0,
          -Real.sin (Real.pi * 6 / 7), 0] := by
    rw [hd]
    have w0 := hw 0 (by norm_num)
    have w2 := hw 2 (by norm_num)
    have w4 := hw 4 (by norm_num)
    have w6 := hw 6 (by norm_num)
    simp only [Nat.cast_zero, Nat.cast_ofNat, mul_zero, zero_div, Real.sin_zero,
      List.getD_eq_getElem?_getD] at w0 w2 w4 w6
    simp [List.range, List.range.loop, sineBlock, w0, w2, w4, w6]
  rw [hl, hd, hE.2.2.2.2]
  exact realDFT_eight _ _ _

end ScenarioValues

section ScenarioNumbers

open Kiss

/-- The three sines of the scenario: signs, and the bounds that place the amplitude of
bins 0 and 4 against the peak. -/
theorem scenario_sines :
    0 < Real.sin (Real.pi * 2 / 7) ∧ 0 < Real.sin (Real.pi * 4 / 7) ∧
      0 < Real.sin (Real.pi * 6 / 7) ∧
      1 / 10 < Real.sin (Real.pi * 2 / 7) + Real.sin (Real.pi * 6 / 7)
        - Real.sin (Real.pi * 4 / 7) ∧
      3 * (Real.sin (Real.pi * 2 / 7) + Real.sin (Real.pi * 6 / 7))
        < 5 * Real.sin (Real.pi * 4 / 7) := by
  have hpi1 := Real.pi_gt_d2
  have hpi2 := Real.pi_lt_d2
  have hy0 : (0 : ℝ) < Real.pi / 7 := by positivity
  have hy1 : (314 : ℝ) / 700 < Real.pi / 7 := by linarith
  have hy2 : Real.pi / 7 < (315 : ℝ) / 700 := by linarith
  have hd : Real.sin (Real.pi * 6 / 7) = Real.sin (Real.pi / 7) := by
    rw [← Real.sin_pi_sub]
    congr 1
    ring
  have ha : Real.sin (Real.pi * 2 / 7) = Real.sin (2 * (Real.pi / 7)) := by
    congr 1
    ring
  have hb : Real.sin (Real.pi * 4 / 7) = Real.cos (Real.pi / 14) := by
    rw [← Real.cos_pi_div_two_sub, ← Real.cos_neg]
    congr 1
    ring
  have hdl := Real.sin_gt_sub_cube hy0 (by linarith)
  have hal := Real.sin_gt_sub_cube (x := 2 * (Real.pi / 7)) (by linarith) (by linarith)
  have hdu := Real.sin_lt hy0
  have hau := Real.sin_lt (x := 2 * (Real.pi / 7)) (by linarith)
  have hbu := Real.sin_le_one (Real.pi * 4 / 7)
  have hbl := Real.one_sub_sq_div_two_le_cos (x := Real.pi / 14)
  have hcube : (Real.pi / 7) ^ 3 ≤ ((315 : ℝ) / 700) ^ 3 :=
    pow_le_pow_left₀ (le_of_lt hy0) (le_of_lt hy2) 3
  have hsq : (Real.pi / 14) ^ 2 ≤ ((315 : ℝ) / 1400) ^ 2 :=
    pow_le_pow_left₀ (by positivity) (by linarith) 2
  have hc2 : (2 * (Real.pi / 7)) ^ 3 = 8 * (Real.pi / 7) ^ 3 := by ring
  rw [hc2] at hal
  refine ⟨?_, ?_, ?_, ?_, ?_⟩
  · rw [ha]
    apply Real.sin_pos_of_pos_of_lt_pi <;> linarith
  · apply Real.sin_pos_of_pos_of_lt_pi
    · positivity
    · linarith
  · rw [hd]
    apply Real.sin_pos_of_pos_of_lt_pi <;> linarith
  · rw [ha, hd]
    norm_num at hcube
    linarith
  · rw [ha, hd, hb]
    norm_num at hsq
    linarith

/-- The window sum of eight samples is twice the sum of the three sines of the scenario. -/
theorem scenario_windowSum :
    Finset.sum (Finset.range 8) (fun j => Real.sin (Real.pi * (j : ℝ) / 7))
      = 2 * (Real.sin (Real.pi * 2 / 7) + Real.sin (Real.pi * 4 / 7)
          + Real.sin (Real.pi * 6 / 7)) := by
  have h1 : Real.sin (Real.pi * 1 / 7) = Real.sin (Real.pi * 6 / 7) := by
    rw [← Real.sin_pi_sub]
    congr 1
    ring
  have h3 : Real.sin (Real.pi * 3 / 7) = Real.sin (Real.pi * 4 / 7) := by
    rw [← Real.sin_pi_sub]
    congr 1
    ring
  have h5 : Real.sin (Real.pi * 5 / 7) = Real.sin (Real.pi * 2 / 7) := by
    rw [← Real.sin_pi_sub]
    congr 1
    ring
  have h7 : Real.sin (Real.pi * 7 / 7) = 0 := by
    rw [mul_div_assoc, div_self (by norm_num), mul_one, Real.sin_pi]
  simp only [Finset.sum_range_succ, Finset.sum_range_zero, Nat.cast_zero, Nat.cast_one,
    Nat.cast_ofNat, mul_zero, zero_div, Real.sin_zero, h1, h3, h5, h7]
  ring

end ScenarioNumbers

section ScenarioClaim

open Kiss

/-- The five amplitudes of the scenario, as square roots. -/
theorem scenario_amplitudes (E : Engine ℝ) (hE : Exact E) (b0 : Bool) (s0 : Kiss ℝ)
    (hc : create E 8 b0 = some s0) :
    (getAmplitude E (setData sineBlock (setFilterPreset 0 Filter.NONE s0))).2.getD 0 0
        = Real.sqrt
          (((-Real.sin (Real.pi * 2 / 7) + Real.sin (Real.pi * 4 / 7)
              - Real.sin (Real.pi * 6 / 7)) * (2 / s0.mWindowSum)) ^ 2
            + (0 * (2 / s0.mWindowSum)) ^ 2) ∧
      (getAmplitude E (setData sineBlock (setFilterPreset 0 Filter.NONE s0))).2.getD 1 0
        = Real.sqrt
          ((-Real.sin (Real.pi * 4 / 7) * (2 / s0.mWindowSum)) ^ 2
            + ((Real.sin (Real.pi * 2 / 7) - Real.sin (Real.pi * 6 / 7))
              * (2 / s0.mWindowSum)) ^ 2) ∧
      (getAmplitude E (setData sineBlock (setFilterPreset 0 Filter.NONE s0))).2.getD 2 0
        = Real.sqrt
          (((Real.sin (Real.pi * 2 / 7) + Real.sin (Real.pi * 4 / 7)
              + Real.sin (Real.pi * 6 / 7)) * (2 / s0.mWindowSum)) ^ 2
            + (0 * (2 / s0.mWindowSum)) ^ 2) ∧
      (getAmplitude E (setData sineBlock (setFilterPreset 0 Filter.NONE s0))).2.getD 3 0
        = Real.sqrt
          ((-Real.sin (Real.pi * 4 / 7) * (2 / s0.mWindowSum)) ^ 2
            + ((Real.sin (Real.pi * 6 / 7) - Real.sin (Real.pi * 2 / 7))
              * (2 / s0.mWindowSum)) ^ 2) ∧
      (getAmplitude E (setData sineBlock (setFilterPreset 0 Filter.NONE s0))).2.getD 4 0
        = Real.sqrt
          (((-Real.sin (Real.pi * 2 / 7) + Real.sin (Real.pi * 4 / 7)
              - Real.sin (Real.pi * 6 / 7)) * (2 / s0.mWindowSum)) ^ 2
            + (0 * (2 / s0.mWindowSum)) ^ 2) := by
  obtain ⟨hr, hal, hd, hb, -, -⟩ := create_eight E hE b0 s0 hc
  have hF := scenario_spectrum E hE b0 s0 hc
  have hf : setFilterPreset (0 : ℝ) Filter.NONE s0 = setFilter 0 1 s0 := by
    simp [setFilterPreset, Filter.NONE, Filter.HIGH_PASS, Filter.LOW_PASS]
  have hx : s0.mDataSize ≤ (sineBlock : List ℝ).length := by
    rw [hd]
    simp [sineBlock]
  have key : ∀ i, i < 5 →
      (getAmplitude E (setData sineBlock (setFilterPreset 0 Filter.NONE s0))).2.getD i 0
        = Real.sqrt
          (((([⟨-Real.sin (Real.pi * 2 / 7) + Real.sin (Real.pi * 4 / 7)
                - Real.sin (Real.pi * 6 / 7), 0⟩,
              ⟨-Real.sin (Real.pi * 4 / 7),
                Real.sin (Real.pi * 2 / 7) - Real.sin (Real.pi * 6 / 7)⟩,
              ⟨Real.sin (Real.pi * 2 / 7) + Real.sin (Real.pi * 4 / 7)
                + Real.sin (Real.pi * 6 / 7), 0⟩,
              ⟨-Real.sin (Real.pi * 4 / 7),
                Real.sin (Real.pi * 6 / 7) - Real.sin (Real.pi * 2 / 7)⟩,
              ⟨-Real.sin (Real.pi * 2 / 7) + Real.sin (Real.pi * 4 / 7)
                - Real.sin (Real.pi * 6 / 7), 0⟩] : List (kiss_fft_cpx ℝ)).getD i ⟨0, 0⟩).r
              * (2 / s0.mWindowSum)) ^ 2
            + ((([⟨-Real.sin (Real.pi * 2 / 7) + Real.sin (Real.pi * 4 / 7)
                - Real.sin (Real.pi * 6 / 7), 0⟩,
              ⟨-Real.sin (Real.pi * 4 / 7),
                Real.sin (Real.pi * 2 / 7) - Real.sin (Real.pi * 6 / 7)⟩,
              ⟨Real.sin (Real.pi * 2 / 7) + Real.sin (Real.pi * 4 / 7)
                + Real.sin (Real.pi * 6 / 7), 0⟩,
              ⟨-Real.sin (Real.pi * 4 / 7),
                Real.sin (Real.pi * 6 / 7) - Real.sin (Real.pi * 2 / 7)⟩,
              ⟨-Real.sin (Real.pi * 2 / 7) + Real.sin (Real.pi * 4 / 7)
                - Real.sin (Real.pi * 6 / 7), 0⟩] : List (kiss_fft_cpx ℝ)).getD i ⟨0, 0⟩).i
              * (2 / s0.mWindowSum)) ^ 2) := by
    intro i hi
    have hexact : (0 : ℝ) * (s0.mBinSize : ℝ) ≤ (i : ℝ) ∧ (i : ℝ) ≤ 1 * (s0.mBinSize : ℝ) := by
      rw [hb]
      constructor
      · simp
      · have : (i : ℝ) < 5 := by exact_mod_cast hi
        norm_num
        linarith
    have hband : float32 ((0 : ℝ) * (s0.mBinSize : ℝ)) ≤ (i : ℝ) ∧
        (i : ℝ) ≤ float32 (1 * (s0.mBinSize : ℝ)) :=
      ⟨float32_le_natCast _ i hexact.1, natCast_le_float32 _ i hexact.2⟩
    rw [hf, amplitude_after_block E s0 0 1 sineBlock i hr hal hx (by rw [hb]; exact hi),
      if_pos hband, if_pos hband, hF, hE.2.2.2.1]
  have k0 := key 0 (by norm_num)
  have k1 := key 1 (by norm_num)
  have k2 := key 2 (by norm_num)
  have k3 := key 3 (by norm_num)
  have k4 := key 4 (by norm_num)
  simp only [List.getD_cons_zero, List.getD_cons_succ] at k0 k1 k2 k3 k4
  exact ⟨k0, k1, k2, k3, k4⟩

end ScenarioClaim

section ScenarioPeak

open Kiss

/-- Magnitudes of the scaled bins for three positive sines `a`, `b`, `d` and the scale
`2 / ( 2 ( a + b + d ) )`. -/
theorem peak_numbers (a b d : ℝ) (ha : 0 < a) (hb : 0 < b) (hd : 0 < d)
    (hlow : 0 < a + d - b) :
    Real.sqrt (((a + b + d) * (2 / (2 * (a + b + d)))) ^ 2
        + (0 * (2 / (2 * (a + b + d)))) ^ 2) = 1 ∧
      Real.sqrt (((-a + b - d) * (2 / (2 * (a + b + d)))) ^ 2
        + (0 * (2 / (2 * (a + b + d)))) ^ 2) = (a + d - b) / (a + b + d) ∧
      Real.sqrt ((-b * (2 / (2 * (a + b + d)))) ^ 2
        + ((a - d) * (2 / (2 * (a + b + d)))) ^ 2) < 1 ∧
      Real.sqrt ((-b * (2 / (2 * (a + b + d)))) ^ 2
        + ((d - a) * (2 / (2 * (a + b + d)))) ^ 2) < 1 := by
  have hS : 0 < a + b + d := by linarith
  have hc : 2 / (2 * (a + b + d)) = 1 / (a + b + d) := by
    field_simp
  have hq : (-b * (1 / (a + b + d))) ^ 2 + ((a - d) * (1 / (a + b + d))) ^ 2
      = (b ^ 2 + (a - d) ^ 2) / (a + b + d) ^ 2 := by
    field_simp
  have hq' : (-b * (1 / (a + b + d))) ^ 2 + ((d - a) * (1 / (a + b + d))) ^ 2
      = (b ^ 2 + (a - d) ^ 2) / (a + b + d) ^ 2 := by
    field_simp
    ring
  have hlt : (b ^ 2 + (a - d) ^ 2) / (a + b + d) ^ 2 < 1 := by
    rw [div_lt_one (by positivity)]
    nlinarith [mul_pos ha hb, mul_pos ha hd, mul_pos hb hd]
  rw [hc]
  refine ⟨?_, ?_, ?_, ?_⟩
  · have h1 : (a + b + d) * (1 / (a + b + d)) = 1 := by
      field_simp
    rw [h1]
    simp
  · have h1 : ((-a + b - d) * (1 / (a + b + d))) ^ 2 + (0 * (1 / (a + b + d))) ^ 2
        = ((a + d - b) / (a + b + d)) ^ 2 := by
      field_simp
      ring
    rw [h1, Real.sqrt_sq (le_of_lt (div_pos hlow hS))]
  · rw [hq, Real.sqrt_lt' one_pos]
    simpa using hlt
  · rw [hq', Real.sqrt_lt' one_pos]
    simpa using hlt

/-- The amplitudes of the scenario: bin 2 is 1, bins 1 and 3 are below 1, bins 0 and 4
are equal and lie strictly between 1/30 and 1/4. -/
theorem scenario_values (E : Engine ℝ) (hE : Exact E) (b0 : Bool) (s0 : Kiss ℝ)
    (hc : create E 8 b0 = some s0) :
    (getAmplitude E (setData sineBlock (setFilterPreset 0 Filter.NONE s0))).2.getD 2 0 = 1 ∧
      (getAmplitude E (setData sineBlock (setFilterPreset 0 Filter.NONE s0))).2.getD 1 0 < 1 ∧
      (getAmplitude E (setData sineBlock (setFilterPreset 0 Filter.NONE s0))).2.getD 3 0 < 1 ∧
      (getAmplitude E (setData sineBlock (setFilterPreset 0 Filter.NONE s0))).2.getD 0 0
        = (Real.sin (Real.pi * 2 / 7) + Real.sin (Real.pi * 6 / 7)
            - Real.sin (Real.pi * 4 / 7))
          / (Real.sin (Real.pi * 2 / 7) + Real.sin (Real.pi * 4 / 7)
            + Real.sin (Real.pi * 6 / 7)) ∧
      (getAmplitude E (setData sineBlock (setFilterPreset 0 Filter.NONE s0))).2.getD 4 0
        = (getAmplitude E (setData sineBlock (setFilterPreset 0 Filter.NONE s0))).2.getD 0 0 ∧
      1 / 30
        < (getAmplitude E (setData sineBlock (setFilterPreset 0 Filter.NONE s0))).2.getD 0 0 ∧
      (getAmplitude E (setData sineBlock (setFilterPreset 0 Filter.NONE s0))).2.getD 0 0
        < 1 / 4 := by
  obtain ⟨ha, hb, hd, hlow, hup⟩ := scenario_sines
  obtain ⟨-, -, -, -, hsum, -⟩ := create_eight E hE b0 s0 hc
  rw [scenario_windowSum] at hsum
  obtain ⟨k0, k1, k2, k3, k4⟩ := scenario_amplitudes E hE b0 s0 hc
  rw [hsum] at k0 k1 k2 k3 k4
  obtain ⟨p2, p0, p1, p3⟩ := peak_numbers _ _ _ ha hb hd (by linarith)
  have hS : 0 < Real.sin (Real.pi * 2 / 7) + Real.sin (Real.pi * 4 / 7)
      + Real.sin (Real.pi * 6 / 7) := by linarith
  have hb1 := Real.sin_le_one (Real.pi * 4 / 7)
  have ha1 := Real.sin_le_one (Real.pi * 2 / 7)
  have hd1 := Real.sin_le_one (Real.pi * 6 / 7)
  refine ⟨k2.trans p2, by rw [k1]; exact p1, by rw [k3]; exact p3, k0.trans p0,
    k4.trans k0.symm, ?_, ?_⟩
  · rw [k0, p0, lt_div_iff₀ hS]
    linarith
  · rw [k0, p0, div_lt_iff₀ hS]
    linarith

end ScenarioPeak

section ScenarioClaims

open Kiss

/-- C15 refuted.  Under the exact engine (real sine, cosine, square root and circle
constant, the real DFT as forward transform), `create( 8 )`, filter `NONE`,
`setData( [1,0,-1,0,1,0,-1,0] )`: the analyzer has 5 bins, and the amplitudes
`getAmplitude` returns at bin 0 and at bin 4 are not at most `1e-3`. -/
theorem scenario_not_near_zero :
    ∃ s0, create (⟨Real.pi, Real.sin, Real.cos, Real.sqrt, fun _ _ => 0,
          realDFT Real.cos Real.sin Real.pi, fun _ _ => []⟩ : Engine ℝ) 8 true = some s0 ∧
      getBinSize s0 = 5 ∧
      ¬ ((getAmplitude (⟨Real.pi, Real.sin, Real.cos, Real.sqrt, fun _ _ => 0,
            realDFT Real.cos Real.sin Real.pi, fun _ _ => []⟩ : Engine ℝ)
          (setData sineBlock (setFilterPreset 0 Filter.NONE s0))).2.getD 0 0 ≤ 1 / 1000) ∧
      ¬ ((getAmplitude (⟨Real.pi, Real.sin, Real.cos, Real.sqrt, fun _ _ => 0,
            realDFT Real.cos Real.sin Real.pi, fun _ _ => []⟩ : Engine ℝ)
          (setData sineBlock (setFilterPreset 0 Filter.NONE s0))).2.getD 4 0 ≤ 1 / 1000) := by
  obtain ⟨s0, hs0⟩ := setDataSize_isSome
    (⟨Real.pi, Real.sin, Real.cos, Real.sqrt, fun _ _ => 0,
      realDFT Real.cos Real.sin Real.pi, fun _ _ => []⟩ : Engine ℝ) 8 (unbuilt 8 true)
    (by norm_num)
  have hE : Exact (⟨Real.pi, Real.sin, Real.cos, Real.sqrt, fun _ _ => 0,
      realDFT Real.cos Real.sin Real.pi, fun _ _ => []⟩ : Engine ℝ) := ⟨rfl, rfl, rfl, rfl, rfl⟩
  obtain ⟨-, -, -, -, h4, h0, -⟩ := scenario_values _ hE true s0 hs0
  obtain ⟨-, -, -, hb, -⟩ := create_eight _ hE true s0 hs0
  refine ⟨s0, hs0, hb, ?_, ?_⟩
  · intro h
    linarith
  · intro h
    rw [h4] at h
    linarith

/-- C15 as amended.  In exact arithmetic with the forward transform taken as the 8-point
real DFT: `create( 8 )` succeeds with 5 bins, and after filter `NONE` and
`setData( [1,0,-1,0,1,0,-1,0] )` the amplitudes `getAmplitude` returns have a single
dominant peak at bin 2, where the amplitude is 1 and strictly greater than at each of bins
0, 1, 3 and 4; the amplitudes at bin 0 and at bin 4 are equal, below 1/4 and above 1/30
(so not within `1e-3` of zero). -/
theorem scenario_peak (E : Engine ℝ) (hE : Exact E) (b0 : Bool) :
    ∃ s0, create E 8 b0 = some s0 ∧ getDataSize s0 = 8 ∧ getBinSize s0 = 5 ∧
      (getAmplitude E (setData sineBlock (setFilterPreset 0 Filter.NONE s0))).2.getD 2 0 = 1 ∧
      (getAmplitude E (setData sineBlock (setFilterPreset 0 Filter.NONE s0))).2.getD 0 0
        < (getAmplitude E (setData sineBlock (setFilterPreset 0 Filter.NONE s0))).2.getD 2 0 ∧
      (getAmplitude E (setData sineBlock (setFilterPreset 0 Filter.NONE s0))).2.getD 1 0
        < (getAmplitude E (setData sineBlock (setFilterPreset 0 Filter.NONE s0))).2.getD 2 0 ∧
      (getAmplitude E (setData sineBlock (setFilterPreset 0 Filter.NONE s0))).2.getD 3 0
        < (getAmplitude E (setData sineBlock (setFilterPreset 0 Filter.NONE s0))).2.getD 2 0 ∧
      (getAmplitude E (setData sineBlock (setFilterPreset 0 Filter.NONE s0))).2.getD 4 0
        < (getAmplitude E (setData sineBlock (setFilterPreset 0 Filter.NONE s0))).2.getD 2 0 ∧
      (getAmplitude E (setData sineBlock (setFilterPreset 0 Filter.NONE s0))).2.getD 4 0
        = (getAmplitude E (setData sineBlock (setFilterPreset 0 Filter.NONE s0))).2.getD 0 0 ∧
      1 / 30
        < (getAmplitude E (setData sineBlock (setFilterPreset 0 Filter.NONE s0))).2.getD 0 0 ∧
      (getAmplitude E (setData sineBlock (setFilterPreset 0 Filter.NONE s0))).2.getD 0 0
        < 1 / 4 := by
  obtain ⟨s0, hs0⟩ := setDataSize_isSome E 8 (unbuilt 8 b0) (by norm_num)
  obtain ⟨h2, h1, h3, -, h4, hlo, hhi⟩ := scenario_values E hE b0 s0 hs0
  obtain ⟨-, -, hd, hb, -⟩ := create_eight E hE b0 s0 hs0
  refine ⟨s0, hs0, hd, hb, h2, ?_, ?_, ?_, ?_, h4, hlo, hhi⟩
  · rw [h2]
    linarith
  · rw [h2]
    exact h1
  · rw [h2]
    exact h3
  · rw [h2, h4]
    linarith

/-- Witness of C15 as amended: the exact engine with a zero angle function and an empty
inverse transform. -/
theorem scenario_peak_witness :
    Exact ⟨Real.pi, Real.sin, Real.cos, Real.sqrt, fun _ _ => 0,
        realDFT Real.cos Real.sin Real.pi, fun _ _ => []⟩ ∧
    ∃ s0, create (⟨Real.pi, Real.sin, Real.cos, Real.sqrt, fun _ _ => 0,
          realDFT Real.cos Real.sin Real.pi, fun _ _ => []⟩ : Engine ℝ) 8 true = some s0 ∧
      (getAmplitude (⟨Real.pi, Real.sin, Real.cos, Real.sqrt, fun _ _ => 0,
            realDFT Real.cos Real.sin Real.pi, fun _ _ => []⟩ : Engine ℝ)
          (setData sineBlock (setFilterPreset 0 Filter.NONE s0))).2.getD 2 0 = 1 :=
  ⟨⟨rfl, rfl, rfl, rfl, rfl⟩, by
    obtain ⟨s0, hs0, -, -, h2, -⟩ := scenario_peak
      (⟨Real.pi, Real.sin, Real.cos, Real.sqrt, fun _ _ => 0,
        realDFT Real.cos Real.sin Real.pi, fun _ _ => []⟩ : Engine ℝ)
      ⟨rfl, rfl, rfl, rfl, rfl⟩ true
    exact ⟨s0, hs0, h2⟩⟩

end ScenarioClaims

end KissFFT
